import Mathlib

/-!
Verification of the dialect-portable SQL rewriting core of go-lightning.

The Go sources are shallowly embedded below.  Strings are handled the way the
Go code handles them: the rewriter converts its input to a rune slice
(`[]rune(query)`), which we model as `List Char`; the builders
(`strings.Builder`) become ordinary list/string concatenation.  Go `int`
values that are only ever non-negative in the claims under study (placeholder
counters, offsets, counts) are modelled as `Nat`; `strconv.Itoa` on a
non-negative value is `Nat.repr`.  Go maps used only for lookup are modelled
as association lists with exact (case-sensitive) key equality, matching Go's
`==` on `string`.  `unicode.IsLetter` / `unicode.IsDigit` are modelled by
their ASCII restrictions `Char.isAlpha` / `Char.isDigit`; every identifier
appearing in the claims is ASCII, and none of the theorems below depends on
the classification of non-ASCII letters.
-/

set_option maxRecDepth 16384

namespace GoLightning

/-- Embedding of `isParamStart` (sqlite.go): `r == '_' || unicode.IsLetter(r)`. -/
def isParamStart (c : Char) : Bool :=
  c = '_' || c.isAlpha

/-- Embedding of `isParamChar` (sqlite.go):
`r == '_' || unicode.IsLetter(r) || unicode.IsDigit(r)`. -/
def isParamChar (c : Char) : Bool :=
  c = '_' || c.isAlpha || c.isDigit

/-- The backtick character, used by the rewriter's third literal rule. -/
def backquoteChar : Char := ("`").front

/-- The closed set of driver dialects.  The repository ships `pgDriver`
(postgres.go) and `sqliteDriver` (sqlite.go); the MySQL driver's source file
is not among the sources, so its two capability values below are modelled
from the spec. -/
inductive Driver where
  | postgreSQL
  | mySQL
  | sqlite
deriving DecidableEq, Repr

/-- Placeholder formatting.  PostgreSQL (postgres.go): `"$" + strconv.Itoa(argIndex)`;
SQLite (sqlite.go): `"?"`.  Modelled from the spec: the MySQL driver source is
missing; the spec describes it as "a MySQL-style dialect using positional `?`
placeholders", and the repository's parser tests
(`TestParseNamedQuery`, "basic per-driver") pin `"?"`. -/
def Placeholder : Driver → Nat → String
  | .postgreSQL, argIndex => "$" ++ Nat.repr argIndex
  | .mySQL, _ => "?"
  | .sqlite, _ => "?"

/-- Backslash-escape capability.  PostgreSQL (postgres.go) and SQLite
(sqlite.go) return `false`.  Modelled from the spec: the MySQL driver source
is missing; the spec says backslash escaping is "MySQL-style only", and the
repository's parser tests ("backslash escape MySQL") pin `true`. -/
def SupportsBackslashEscape : Driver → Bool
  | .postgreSQL => false
  | .mySQL => true
  | .sqlite => false

/-- Embedding of the three inner literal-copying loops of `ParseNamedQuery`
(sqlite.go).  Given the backslash-escape capability `esc` and the delimiter
`delim`, the loop copies characters until an unescaped, undoubled `delim` is
found (which is copied too); a `\` followed by any character is copied as both
characters when `esc` is set; a doubled delimiter is copied as two characters
and scanning continues; an unterminated literal is copied through
end-of-input.  Returns the copied characters and the rest of the input after
the literal.  The backtick loop in the source has no backslash branch; it is
this function with `esc := false`. -/
def scanLit (esc : Bool) (delim : Char) : List Char → List Char × List Char
  | [] => ([], [])
  | [c] => ([c], [])
  | c :: d :: rest =>
    if esc && c = '\\' then
      let p := scanLit esc delim rest
      (c :: d :: p.1, p.2)
    else if c = delim then
      if d = delim then
        let p := scanLit esc delim rest
        (c :: d :: p.1, p.2)
      else ([c], d :: rest)
    else
      let p := scanLit esc delim (d :: rest)
      (c :: p.1, p.2)

/-- Helper fact used for termination of the main rewriter loop: the rest of
the input returned by `scanLit` is no longer than its input. -/
def scanLitRestLe (esc : Bool) (delim : Char) :
    (l : List Char) → ((scanLit esc delim l).2.length ≤ l.length)
  | [] => by simp [scanLit]
  | [c] => by simp [scanLit]
  | c :: d :: rest => by
    have h2 := scanLitRestLe esc delim rest
    have h1 := scanLitRestLe esc delim (d :: rest)
    simp only [scanLit, List.length_cons] at *
    split_ifs <;> simp_all <;> omega

/-- Helper fact used for termination of the main rewriter loop: `dropWhile`
does not lengthen a list. -/
def dropWhileLengthLe (p : Char → Bool) :
    (l : List Char) → ((l.dropWhile p).length ≤ l.length)
  | [] => by simp
  | c :: rest => by
    have h := dropWhileLengthLe p rest
    simp only [List.dropWhile]
    split
    · simp only [List.length_cons]
      omega
    · simp

/-- Embedding of the main scanning loop of `ParseNamedQuery` (sqlite.go),
recursing over the remaining runes.  `argIndex` is the running bind counter
(number of arguments emitted so far).  The branches appear in source order:
single-quoted literal, double-quoted literal, backtick literal, double colon,
named parameter (with map lookup and missing-parameter error), bare colon,
plain character. -/
def parseAux {α : Type} (drv : Driver) (params : List (String × α)) :
    Nat → List Char → Except String (List Char × List α)
  | _, [] => .ok ([], [])
  | argIndex, c :: rest =>
    if c = '\'' then
      let p := scanLit (SupportsBackslashEscape drv) '\'' rest
      match parseAux drv params argIndex p.2 with
      | .ok (t, args) => .ok (c :: p.1 ++ t, args)
      | .error e => .error e
    else if c = '"' then
      let p := scanLit (SupportsBackslashEscape drv) '"' rest
      match parseAux drv params argIndex p.2 with
      | .ok (t, args) => .ok (c :: p.1 ++ t, args)
      | .error e => .error e
    else if c = backquoteChar then
      let p := scanLit false backquoteChar rest
      match parseAux drv params argIndex p.2 with
      | .ok (t, args) => .ok (c :: p.1 ++ t, args)
      | .error e => .error e
    else if c = ':' then
      match rest with
      | [] => .ok ([':'], [])
      | d :: rest2 =>
        if d = ':' then
          match parseAux drv params argIndex rest2 with
          | .ok (t, args) => .ok (':' :: ':' :: t, args)
          | .error e => .error e
        else if isParamStart d then
          let name : String := ⟨(d :: rest2).takeWhile isParamChar⟩
          match params.lookup name with
          | none => .error ("missing parameter: " ++ name)
          | some v =>
            match parseAux drv params (argIndex + 1) ((d :: rest2).dropWhile isParamChar) with
            | .ok (t, args) => .ok ((Placeholder drv (argIndex + 1)).data ++ t, v :: args)
            | .error e => .error e
        else
          match parseAux drv params argIndex (d :: rest2) with
          | .ok (t, args) => .ok (':' :: t, args)
          | .error e => .error e
    else
      match parseAux drv params argIndex rest with
      | .ok (t, args) => .ok (c :: t, args)
      | .error e => .error e
termination_by _ l => l.length
decreasing_by
  all_goals first
    | exact Nat.lt_succ_of_le (scanLitRestLe _ _ _)
    | exact Nat.lt_of_le_of_lt (dropWhileLengthLe _ _) (by simp)
    | simp only [List.length_cons]; omega

/-- Embedding of `ParseNamedQuery` (sqlite.go): the named-query rewriter.  The
source first rejects a nil driver (not representable for the enumerated
`Driver` here), converts the query to runes, and scans.  Argument values are
polymorphic in `α`, modelling `map[string]any`. -/
def ParseNamedQuery {α : Type} (drv : Driver) (query : String)
    (params : List (String × α)) : Except String (String × List α) :=
  match parseAux drv params 0 query.data with
  | .ok (t, args) => .ok (⟨t⟩, args)
  | .error e => .error e

/-- Embedding of the character-scanning loop inside `pgRenumberPlaceholders`
(postgres.go).  `offset` is the running Go `offset` variable,
`parsingIdentifier` the boolean state.  On `'$'` the state is set and the
dollar written; in parsing state a digit (Go: `c >= '0' && c <= '9'`) is
skipped, any other character flushes `strconv.Itoa(offset+1)` (after the Go
`offset++`) followed by that character; at end of input a pending numeral is
flushed the same way. -/
def renumAux (offset : Nat) (parsingIdentifier : Bool) : List Char → List Char
  | [] => if parsingIdentifier then (Nat.repr (offset + 1)).data else []
  | c :: rest =>
    if c = '$' then
      '$' :: renumAux offset true rest
    else if parsingIdentifier then
      if '0' ≤ c && c ≤ '9' then
        renumAux offset true rest
      else
        (Nat.repr (offset + 1)).data ++ c :: renumAux (offset + 1) false rest
    else
      c :: renumAux offset false rest

/-- Embedding of `pgRenumberPlaceholders` (postgres.go).  The source first
returns the input unchanged when it contains no `"$"` (`strings.Contains`);
otherwise it runs the scanning loop.  The Go `int` offset is modelled as
`Nat`; the claims under study quantify over non-negative offsets only. -/
def pgRenumberPlaceholders (w : String) (offset : Nat) : String :=
  if !(w.data.contains '$') then w
  else ⟨renumAux offset false w.data⟩

/-- Join of string pieces mirroring the repeated Go pattern
`write piece; if i != len-1 { write sep }`. -/
def goJoin (sep : String) : List String → String
  | [] => ""
  | [x] => x
  | x :: y :: rest => x ++ sep ++ goJoin sep (y :: rest)

/-- Embedding of `pgJoinStringForIn` (postgres.go): `count` placeholders
numbered `offset+1 .. offset+count`, comma-joined. -/
def pgJoinStringForIn (offset count : Nat) : String :=
  goJoin (",") ((List.range count).map (fun i => "$" ++ Nat.repr (i + 1 + offset)))

/-- Embedding of `sqliteJoinStringForIn` (sqlite.go): `count` question marks,
comma-joined. -/
def sqliteJoinStringForIn (count : Nat) : String :=
  goJoin (",") ((List.range count).map (fun _ => "?"))

/-- Modelled from the spec: `mysqlJoinStringForIn` lives in the MySQL driver
source file, which is absent from the sources.  Spec section 4.6: question-mark
dialects ignore the offset and repeat `?` exactly `count` times. -/
def mysqlJoinStringForIn (count : Nat) : String :=
  goJoin (",") ((List.range count).map (fun _ => "?"))

/-- Embedding of the enum `Driver` version's `String()` method
(`type Driver int`, with constants PostgreSQL = 0, MySQL = 1, SQLite = 2):
unknown values print as `"Unknown"`. -/
def driverGoString (d : Int) : String :=
  if d = 0 then "PostgreSQL"
  else if d = 1 then "MySQL"
  else if d = 2 then "SQLite"
  else "Unknown"

/-- Embedding of `JoinStringForInWithDriver` for the enum `Driver`: a switch
over the three known constants whose `default` case falls back to the
PostgreSQL-style join. -/
def JoinStringForInWithDriver (d : Int) (offset count : Nat) : String :=
  if d = 0 then pgJoinStringForIn offset count
  else if d = 1 then mysqlJoinStringForIn count
  else if d = 2 then sqliteJoinStringForIn count
  else pgJoinStringForIn offset count

/-- Which id-retrieval protocol `InsertAndGetId` selects: a `QueryRow` +
`Scan` round trip, or `Exec` + `LastInsertId`.  The database interaction
itself is outside the embedding; only the dialect dispatch is modelled. -/
inductive IdRetrieval where
  | queryRowScan
  | execLastInsertId
deriving DecidableEq, Repr

/-- Embedding of the dispatch structure of the enum `Driver.InsertAndGetId`:
PostgreSQL scans a returned row, MySQL and SQLite use `LastInsertId`, and any
other selector value returns the error `unsupported driver: %v` (where `%v`
prints through `String()`). -/
def InsertAndGetIdDispatch (d : Int) : Except String IdRetrieval :=
  if d = 0 then .ok .queryRowScan
  else if d = 1 then .ok .execLastInsertId
  else if d = 2 then .ok .execLastInsertId
  else .error ("unsupported driver: " ++ driverGoString d)

/-- Character-wise embedding of `strings.ToUpper` as used by the reserved-word
lookups.  `Char.toUpper` upper-cases ASCII letters, which covers every
identifier tested against the reserved-word sets in the claims; the sets
themselves contain ASCII keywords only. -/
def asciiToUpper (s : String) : String :=
  ⟨s.data.map Char.toUpper⟩

/-- Character-level embedding of `strings.ReplaceAll(s, q, qq)` for a
one-character pattern `q` replaced by its doubling, as used by the
reserved-word escapers. -/
def doubleChar (q : Char) : List Char → List Char
  | [] => []
  | c :: rest => if c = q then q :: q :: doubleChar q rest else c :: doubleChar q rest

/-- Embedding of `pgReservedKeywords` (postgres.go): the PostgreSQL reserved-word set, as a list of uppercase keyword strings. -/
def pgReservedKeywords : List String := [
  "ABORT", "ABSENT", "ABSOLUTE", "ACCESS", "ACTION", "ADD", "ADMIN", "AFTER",
  "AGGREGATE", "ALL", "ALSO", "ALTER", "ALWAYS", "ANALYSE", "ANALYZE", "AND",
  "ANY", "ARRAY", "AS", "ASC", "ASENSITIVE", "ASSERTION", "ASSIGNMENT", "ASYMMETRIC",
  "AT", "ATOMIC", "ATTACH", "ATTRIBUTE", "AUTHORIZATION", "BACKWARD", "BEFORE", "BEGIN",
  "BETWEEN", "BIGINT", "BINARY", "BIT", "BOOLEAN", "BOTH", "BREADTH", "BY",
  "CACHE", "CALL", "CALLED", "CASCADE", "CASCADED", "CASE", "CAST", "CATALOG",
  "CHAIN", "CHAR", "CHARACTER", "CHARACTERISTICS", "CHECK", "CHECKPOINT", "CLASS", "CLOSE",
  "CLUSTER", "COALESCE", "COLLATE", "COLLATION", "COLUMN", "COLUMNS", "COMMENT", "COMMENTS",
  "COMMIT", "COMMITTED", "COMPRESSION", "CONCURRENTLY", "CONDITIONAL", "CONFIGURATION", "CONFLICT", "CONNECTION",
  "CONSTRAINT", "CONSTRAINTS", "CONTENT", "CONTINUE", "CONVERSION", "COPY", "COST", "CREATE",
  "CROSS", "CSV", "CUBE", "CURRENT", "CURRENT_CATALOG", "CURRENT_DATE", "CURRENT_ROLE", "CURRENT_SCHEMA",
  "CURRENT_TIME", "CURRENT_TIMESTAMP", "CURRENT_USER", "CURSOR", "CYCLE", "DATA", "DATABASE", "DAY",
  "DEALLOCATE", "DEC", "DECIMAL", "DECLARE", "DEFAULT", "DEFAULTS", "DEFERRABLE", "DEFERRED",
  "DEFINER", "DELETE", "DELIMITER", "DELIMITERS", "DEPENDS", "DEPTH", "DESC", "DETACH",
  "DICTIONARY", "DISABLE", "DISCARD", "DISTINCT", "DO", "DOCUMENT", "DOMAIN", "DOUBLE",
  "DROP", "EACH", "ELSE", "EMPTY", "ENABLE", "ENCODING", "ENCRYPTED", "END",
  "ENFORCED", "ENUM", "ERROR", "ESCAPE", "EVENT", "EXCEPT", "EXCLUDE", "EXCLUDING",
  "EXCLUSIVE", "EXECUTE", "EXISTS", "EXPLAIN", "EXPRESSION", "EXTENSION", "EXTERNAL", "EXTRACT",
  "FALSE", "FAMILY", "FETCH", "FILTER", "FINALIZE", "FIRST", "FLOAT", "FOLLOWING",
  "FOR", "FORCE", "FOREIGN", "FORMAT", "FORWARD", "FREEZE", "FROM", "FULL",
  "FUNCTION", "FUNCTIONS", "GENERATED", "GLOBAL", "GRANT", "GRANTED", "GREATEST", "GROUP",
  "GROUPING", "GROUPS", "HANDLER", "HAVING", "HEADER", "HOLD", "HOUR", "IDENTITY",
  "IF", "ILIKE", "IMMEDIATE", "IMMUTABLE", "IMPLICIT", "IMPORT", "IN", "INCLUDE",
  "INCLUDING", "INCREMENT", "INDENT", "INDEX", "INDEXES", "INHERIT", "INHERITS", "INITIALLY",
  "INLINE", "INNER", "INOUT", "INPUT", "INSENSITIVE", "INSERT", "INSTEAD", "INT",
  "INTEGER", "INTERSECT", "INTERVAL", "INTO", "INVOKER", "IS", "ISNULL", "ISOLATION",
  "JOIN", "JSON", "JSON_ARRAY", "JSON_ARRAYAGG", "JSON_EXISTS", "JSON_OBJECT", "JSON_OBJECTAGG", "JSON_QUERY",
  "JSON_SCALAR", "JSON_SERIALIZE", "JSON_TABLE", "JSON_VALUE", "KEEP", "KEY", "KEYS", "LABEL",
  "LANGUAGE", "LARGE", "LAST", "LATERAL", "LEADING", "LEAKPROOF", "LEAST", "LEFT",
  "LEVEL", "LIKE", "LIMIT", "LISTEN", "LOAD", "LOCAL", "LOCALTIME", "LOCALTIMESTAMP",
  "LOCATION", "LOCK", "LOCKED", "LOGGED", "MAPPING", "MATCH", "MATCHED", "MATERIALIZED",
  "MAXVALUE", "MERGE", "MERGE_ACTION", "METHOD", "MINUTE", "MINVALUE", "MODE", "MONTH",
  "MOVE", "NAME", "NAMES", "NATIONAL", "NATURAL", "NCHAR", "NESTED", "NEW",
  "NEXT", "NFC", "NFD", "NFKC", "NFKD", "NO", "NONE", "NORMALIZE",
  "NORMALIZED", "NOT", "NOTHING", "NOTIFY", "NOTNULL", "NOWAIT", "NULL", "NULLIF",
  "NULLS", "NUMERIC", "OBJECT", "OBJECTS", "OF", "OFF", "OFFSET", "OIDS",
  "OLD", "OMIT", "ON", "ONLY", "OPERATOR", "OPTION", "OPTIONS", "OR",
  "ORDER", "ORDINALITY", "OTHERS", "OUT", "OUTER", "OVER", "OVERLAPS", "OVERLAY",
  "OVERRIDING", "OWNED", "OWNER", "PARALLEL", "PARAMETER", "PARSER", "PARTIAL", "PARTITION",
  "PASSING", "PASSWORD", "PATH", "PERIOD", "PLACING", "PLAN", "PLANS", "POLICY",
  "POSITION", "PRECEDING", "PRECISION", "PREPARE", "PREPARED", "PRESERVE", "PRIMARY", "PRIOR",
  "PRIVILEGES", "PROCEDURAL", "PROCEDURE", "PROCEDURES", "PROGRAM", "PUBLICATION", "QUOTE", "QUOTES",
  "RANGE", "READ", "REAL", "REASSIGN", "RECURSIVE", "REF", "REFERENCES", "REFERENCING",
  "REFRESH", "REINDEX", "RELATIVE", "RELEASE", "RENAME", "REPEATABLE", "REPLACE", "REPLICA",
  "RESET", "RESTART", "RESTRICT", "RETURN", "RETURNING", "RETURNS", "REVOKE", "RIGHT",
  "ROLE", "ROLLBACK", "ROLLUP", "ROUTINE", "ROUTINES", "ROW", "ROWS", "RULE",
  "SAVEPOINT", "SCALAR", "SCHEMA", "SCHEMAS", "SCROLL", "SEARCH", "SECOND", "SECURITY",
  "SELECT", "SEQUENCE", "SEQUENCES", "SERIALIZABLE", "SERVER", "SESSION", "SESSION_USER", "SET",
  "SETOF", "SETS", "SHARE", "SHOW", "SIMILAR", "SIMPLE", "SKIP", "SMALLINT",
  "SNAPSHOT", "SOME", "SOURCE", "SQL", "STABLE", "STANDALONE", "START", "STATEMENT",
  "STATISTICS", "STDIN", "STDOUT", "STORAGE", "STORED", "STRICT", "STRING", "STRIP",
  "SUBSCRIPTION", "SUBSTRING", "SUPPORT", "SYMMETRIC", "SYSID", "SYSTEM", "SYSTEM_USER", "TABLE",
  "TABLES", "TABLESAMPLE", "TABLESPACE", "TARGET", "TEMP", "TEMPLATE", "TEMPORARY", "TEXT",
  "THEN", "TIES", "TIME", "TIMESTAMP", "TO", "TRAILING", "TRANSACTION", "TRANSFORM",
  "TREAT", "TRIGGER", "TRIM", "TRUE", "TRUNCATE", "TRUSTED", "TYPE", "TYPES",
  "UESCAPE", "UNBOUNDED", "UNCOMMITTED", "UNCONDITIONAL", "UNENCRYPTED", "UNION", "UNIQUE", "UNKNOWN",
  "UNLISTEN", "UNLOGGED", "UNTIL", "UPDATE", "USER", "USING", "VACUUM", "VALID",
  "VALIDATE", "VALIDATOR", "VALUE", "VALUES", "VARCHAR", "VARIADIC", "VARYING", "VERBOSE",
  "VERSION", "VIEW", "VIEWS", "VIRTUAL", "VOLATILE", "WHEN", "WHERE", "WHITESPACE",
  "WINDOW", "WITH", "WITHIN", "WITHOUT", "WORK", "WRAPPER", "WRITE", "XML",
  "XMLATTRIBUTES", "XMLCONCAT", "XMLELEMENT", "XMLEXISTS", "XMLFOREST", "XMLNAMESPACES", "XMLPARSE", "XMLPI",
  "XMLROOT", "XMLSERIALIZE", "XMLTABLE", "YEAR", "YES", "ZONE"
]

/-- Embedding of `sqliteReservedKeywords` (sqlite.go): the SQLite reserved-word set. -/
def sqliteReservedKeywords : List String := [
  "ABORT", "ACTION", "ADD", "AFTER", "ALL", "ALTER", "ALWAYS", "ANALYZE",
  "AND", "AS", "ASC", "ATTACH", "AUTOINCREMENT", "BEFORE", "BEGIN", "BETWEEN",
  "BY", "CASCADE", "CASE", "CAST", "CHECK", "COLLATE", "COLUMN", "COMMIT",
  "CONFLICT", "CONSTRAINT", "CREATE", "CROSS", "CURRENT", "CURRENT_DATE", "CURRENT_TIME", "CURRENT_TIMESTAMP",
  "DATABASE", "DEFAULT", "DEFERRABLE", "DEFERRED", "DELETE", "DESC", "DETACH", "DISTINCT",
  "DO", "DROP", "EACH", "ELSE", "END", "ESCAPE", "EXCEPT", "EXCLUDE",
  "EXCLUSIVE", "EXISTS", "EXPLAIN", "FAIL", "FILTER", "FIRST", "FOLLOWING", "FOR",
  "FOREIGN", "FROM", "FULL", "GENERATED", "GLOB", "GROUP", "GROUPS", "HAVING",
  "IF", "IGNORE", "IMMEDIATE", "IN", "INDEX", "INDEXED", "INITIALLY", "INNER",
  "INSERT", "INSTEAD", "INTERSECT", "INTO", "IS", "ISNULL", "JOIN", "KEY",
  "LAST", "LEFT", "LIKE", "LIMIT", "MATCH", "MATERIALIZED", "NATURAL", "NO",
  "NOT", "NOTHING", "NOTNULL", "NULL", "NULLS", "OF", "OFFSET", "ON",
  "OR", "ORDER", "OTHERS", "OUTER", "OVER", "PARTITION", "PLAN", "PRAGMA",
  "PRECEDING", "PRIMARY", "QUERY", "RAISE", "RANGE", "RECURSIVE", "REFERENCES", "REGEXP",
  "REINDEX", "RELEASE", "RENAME", "REPLACE", "RESTRICT", "RETURNING", "RIGHT", "ROLLBACK",
  "ROW", "ROWS", "SAVEPOINT", "SELECT", "SET", "TABLE", "TEMP", "TEMPORARY",
  "THEN", "TIES", "TO", "TRANSACTION", "TRIGGER", "UNBOUNDED", "UNION", "UNIQUE",
  "UPDATE", "USING", "VACUUM", "VALUES", "VIEW", "VIRTUAL", "WHEN", "WHERE",
  "WINDOW", "WITH", "WITHOUT"
]

/-- Reserved words of the MySQL dialect.  Modelled from the spec: the MySQL
driver source file is absent.  The exact set is irrelevant to every claim
below (no theorem depends on which identifiers are quoted); the entries here
are the ones exercised by the repository tests plus common MySQL keywords. -/
def mysqlReservedKeywords : List String := [
  "ORDER", "GROUP", "NAME", "USER", "SELECT", "INSERT", "UPDATE", "DELETE",
  "TABLE", "INDEX", "KEY", "WHERE", "FROM", "AND", "OR", "NOT"
]

/-- Embedding of `pgEscapeReserved` (postgres.go): double any embedded
double-quote, then wrap in double quotes when the upper-cased identifier is a
reserved word; otherwise return the identifier unchanged. -/
def pgEscapeReserved (s : String) : String :=
  let escaped : String := ⟨doubleChar '"' s.data⟩
  if pgReservedKeywords.contains (asciiToUpper s) then "\"" ++ escaped ++ "\"" else s

/-- Embedding of `sqliteEscapeReserved` (sqlite.go): same shape as the
PostgreSQL escaper with the SQLite reserved-word set. -/
def sqliteEscapeReserved (s : String) : String :=
  let escaped : String := ⟨doubleChar '"' s.data⟩
  if sqliteReservedKeywords.contains (asciiToUpper s) then "\"" ++ escaped ++ "\"" else s

/-- Modelled from the spec: `mysqlEscapeReserved` lives in the absent MySQL
driver source.  Spec section 4.1: backtick is the MySQL quoting character,
embedded backticks are doubled, lookup is on the upper-cased identifier.  The
repository tests (`TestMySqlInsertUpdateQueryGenerator_ReservedKeywords`)
pin backtick wrapping. -/
def mysqlEscapeReserved (s : String) : String :=
  let bq : String := ⟨[backquoteChar]⟩
  let escaped : String := ⟨doubleChar backquoteChar s.data⟩
  if mysqlReservedKeywords.contains (asciiToUpper s) then bq ++ escaped ++ bq else s

/-- Embedding of the VALUES-section loop of the PostgreSQL
`GenerateInsertQuery` (postgres.go): walks the column keys with the running
bind counter, producing the per-column VALUES tokens (`DEFAULT` for an integer
identity column named exactly `id`, else `"$" + strconv.Itoa(counter)`)
and the argument-column list. -/
def pgInsertValues (hasIntId : Bool) : List String → Nat → List String × List String
  | [], _ => ([], [])
  | k :: ks, counter =>
    if hasIntId && k == "id" then
      let p := pgInsertValues hasIntId ks counter
      ("DEFAULT" :: p.1, p.2)
    else
      let p := pgInsertValues hasIntId ks (counter + 1)
      (("$" ++ Nat.repr counter) :: p.1, k :: p.2)

/-- Embedding of the PostgreSQL `GenerateInsertQuery` (postgres.go).  The Go
builder writes each escaped column followed by a comma except after the last,
which is the join `goJoin ","`; the counter starts at 1. -/
def pgGenerateInsertQuery (tableName : String) (columnKeys : List String)
    (hasIntId : Bool) : String × List String :=
  let vp := pgInsertValues hasIntId columnKeys 1
  ("INSERT INTO " ++ pgEscapeReserved tableName ++ " (" ++
      goJoin (",") (columnKeys.map pgEscapeReserved) ++ ") VALUES (" ++
      goJoin (",") vp.1 ++ ") RETURNING id",
    vp.2)

/-- Embedding of the VALUES-section loop of the SQLite `GenerateInsertQuery`
(sqlite.go): `NULL` for an integer identity column named exactly `id`, else
`?`; no counter. -/
def sqliteInsertValues (hasIntId : Bool) : List String → List String × List String
  | [] => ([], [])
  | k :: ks =>
    let p := sqliteInsertValues hasIntId ks
    if hasIntId && k == "id" then ("NULL" :: p.1, p.2)
    else ("?" :: p.1, k :: p.2)

/-- Embedding of the SQLite `GenerateInsertQuery` (sqlite.go): like the
PostgreSQL generator but with `?` placeholders, `NULL` for the identity
column, and no `RETURNING` clause. -/
def sqliteGenerateInsertQuery (tableName : String) (columnKeys : List String)
    (hasIntId : Bool) : String × List String :=
  let vp := sqliteInsertValues hasIntId columnKeys
  ("INSERT INTO " ++ sqliteEscapeReserved tableName ++ " (" ++
      goJoin (",") (columnKeys.map sqliteEscapeReserved) ++ ") VALUES (" ++
      goJoin (",") vp.1 ++ ")",
    vp.2)

/-- Modelled from the spec: the MySQL `GenerateInsertQuery` lives in the
absent MySQL driver source.  The spec text says the identity placeholder is
"omitted entirely" for MySQL, but the repository's own tests
(`TestMySqlInsertUpdateQueryGenerator_GenerateInsertQuery` and
`_ReservedKeywords` in lit_test.go) require the generated text to contain
`NULL` and the `id` column while excluding `id` from the argument columns —
exactly the SQLite shape with backtick escaping and no `RETURNING` clause.
This definition follows the tests; the spec's literal "omitted entirely"
variant is `mysqlGenerateInsertQueryOmitSpec` below. -/
def mysqlGenerateInsertQuery (tableName : String) (columnKeys : List String)
    (hasIntId : Bool) : String × List String :=
  let vp := sqliteInsertValues hasIntId columnKeys
  ("INSERT INTO " ++ mysqlEscapeReserved tableName ++ " (" ++
      goJoin (",") (columnKeys.map mysqlEscapeReserved) ++ ") VALUES (" ++
      goJoin (",") vp.1 ++ ")",
    vp.2)

/-- Modelled from the spec, for comparison only: the MySQL insert generator
as the spec's words describe it, with the integer identity column "omitted
entirely" (from the column list and the VALUES list alike, the only reading
that yields syntactically valid SQL). -/
def mysqlGenerateInsertQueryOmitSpec (tableName : String) (columnKeys : List String)
    (hasIntId : Bool) : String × List String :=
  let kept := if hasIntId then columnKeys.filter (fun k => !(k == "id")) else columnKeys
  ("INSERT INTO " ++ mysqlEscapeReserved tableName ++ " (" ++
      goJoin (",") (kept.map mysqlEscapeReserved) ++ ") VALUES (" ++
      goJoin (",") (kept.map (fun _ => "?")) ++ ")",
    kept)

/-- Numeric value of a digit run, most significant first. -/
def natOfDigits (ds : List Char) : Nat :=
  ds.foldl (fun a c => 10 * a + (c.toNat - ("0").front.toNat)) 0

/-- Modelled from the spec, for comparison only: the renumbering primitive as
claim C1 words it — each placeholder (a `$` followed by at least one digit)
has the offset added to its numeral, and all other text, including a `$` not
followed by digits, is preserved verbatim. -/
def addOffsetSpec (offset : Nat) : List Char → List Char
  | [] => []
  | c :: rest =>
    if c = '$' then
      let ds := rest.takeWhile Char.isDigit
      if ds.isEmpty then
        '$' :: addOffsetSpec offset rest
      else
        '$' :: (Nat.repr (natOfDigits ds + offset)).data ++
          addOffsetSpec offset (rest.dropWhile Char.isDigit)
    else
      c :: addOffsetSpec offset rest
termination_by l => l.length
decreasing_by
  all_goals first
    | exact Nat.lt_succ_of_le (dropWhileLengthLe _ _)
    | simp

/-- The fragment `p0 $s p1 $(s+1) ... $(s+n-1) pn`: `rest` supplies the
pieces that follow each placeholder, numbering starts at `s`.  With `s = 1`
this is a WHERE fragment "containing positional placeholders starting at 1"
in increasing textual order. -/
def numberedFragment (p0 : String) (rest : List String) (s : Nat) : String :=
  match rest with
  | [] => p0
  | p :: ps => p0 ++ "$" ++ Nat.repr s ++ numberedFragment p ps (s + 1)

/-- Character-level counterpart of `numberedFragment`, used in proofs. -/
def fragChars (p0 : List Char) : List (List Char) → Nat → List Char
  | [], _ => p0
  | p :: ps, s => p0 ++ '$' :: (Nat.repr s).data ++ fragChars p ps (s + 1)

/-- The placeholder numerals of a text, in textual order: the maximal digit
runs immediately following each `$` (a `$` followed by no digit contributes
nothing). -/
def pgPHList : List Char → List (List Char)
  | [] => []
  | c :: rest =>
    if c = '$' then
      let ds := rest.takeWhile Char.isDigit
      if ds.isEmpty then pgPHList rest
      else ds :: pgPHList (rest.dropWhile Char.isDigit)
    else pgPHList rest
termination_by l => l.length
decreasing_by
  all_goals first
    | exact Nat.lt_succ_of_le (dropWhileLengthLe _ _)
    | simp

/-- A character that the rewriter copies without interpretation: not a quote
delimiter of any kind and not a colon. -/
def plainChar (c : Char) : Bool :=
  !(c = '\'' || c = '"' || c = backquoteChar || c = ':')

/-- Whether a character list starts with an ASCII digit. -/
def headDigit : List Char → Bool
  | [] => false
  | c :: _ => c.isDigit

/-! ### Decimal numerals -/

theorem digitChar_isDigit {n : Nat} (h : n < 10) : (Nat.digitChar n).isDigit = true := by
  interval_cases n <;> decide

theorem toDigitsCore_digit (f : Nat) :
    ∀ (n : Nat) (acc : List Char), (∀ c ∈ acc, c.isDigit = true) →
      ∀ c ∈ Nat.toDigitsCore 10 f n acc, c.isDigit = true := by
  induction f with
  | zero => intro n acc hacc c hc; exact hacc c hc
  | succ f ih =>
    intro n acc hacc c hc
    rw [Nat.toDigitsCore] at hc
    have hd : (Nat.digitChar (n % 10)).isDigit = true :=
      digitChar_isDigit (Nat.mod_lt _ (by norm_num))
    split at hc
    · rcases List.mem_cons.mp hc with h | h
      · exact h ▸ hd
      · exact hacc c h
    · refine ih (n / 10) _ ?_ c hc
      intro x hx
      rcases List.mem_cons.mp hx with h | h
      · exact h ▸ hd
      · exact hacc x h

theorem repr_digit (n : Nat) : ∀ c ∈ (Nat.repr n).data, c.isDigit = true := by
  intro c hc
  exact toDigitsCore_digit (n + 1) n [] (by simp) c hc

theorem toDigitsCore_length (f : Nat) :
    ∀ (n : Nat) (acc : List Char),
      acc.length < (Nat.toDigitsCore 10 (f + 1) n acc).length := by
  induction f with
  | zero =>
    intro n acc
    rw [Nat.toDigitsCore]
    split <;> simp [Nat.toDigitsCore]
  | succ f ih =>
    intro n acc
    rw [Nat.toDigitsCore]
    split
    · simp
    · have := ih (n / 10) (Nat.digitChar (n % 10) :: acc)
      simp only [List.length_cons] at this
      omega

theorem repr_ne_nil (n : Nat) : (Nat.repr n).data ≠ [] := by
  have := toDigitsCore_length n n []
  intro h
  have : (Nat.repr n).data.length = 0 := by rw [h]; rfl
  have hr : (Nat.repr n).data = Nat.toDigitsCore 10 (n + 1) n [] := rfl
  rw [hr] at this
  simp only [List.length_nil] at *
  omega

theorem isDigit_ne {c x : Char} (h : c.isDigit = true) (hx : x.isDigit = false) : c ≠ x := by
  intro e
  subst e
  rw [h] at hx
  exact absurd hx (by decide)

/-! ### takeWhile / dropWhile over a clean split -/

theorem takeWhile_append_of_all {p : Char → Bool} :
    ∀ (ds b : List Char), (∀ c ∈ ds, p c = true) →
      (∀ c, b.head? = some c → p c = false) →
      (ds ++ b).takeWhile p = ds ∧ (ds ++ b).dropWhile p = b := by
  intro ds
  induction ds with
  | nil =>
    intro b _ hb
    cases b with
    | nil => simp
    | cons c cs =>
      have := hb c rfl
      simp [List.takeWhile, List.dropWhile, this]
  | cons d ds ih =>
    intro b hds hb
    have hd : p d = true := hds d (by simp)
    have := ih b (fun c hc => hds c (by simp [hc])) hb
    simp [List.takeWhile, List.dropWhile, hd, this.1, this.2]

/-! ### scanLit -/

theorem scanLit_sublist (esc : Bool) (delim : Char) :
    ∀ l : List Char,
      List.Sublist (scanLit esc delim l).1 l ∧ List.Sublist (scanLit esc delim l).2 l
  | [] => by simp [scanLit]
  | [c] => by simp [scanLit]
  | c :: d :: rest => by
    have h2 := scanLit_sublist esc delim rest
    have h1 := scanLit_sublist esc delim (d :: rest)
    simp only [scanLit]
    split_ifs with hA hB hC
    · exact ⟨(h2.1.cons₂ d).cons₂ c, (h2.2.cons d).cons c⟩
    · exact ⟨(h2.1.cons₂ d).cons₂ c, (h2.2.cons d).cons c⟩
    · exact ⟨(List.nil_sublist (d :: rest)).cons₂ c, List.Sublist.cons c (List.Sublist.refl _)⟩
    · exact ⟨h1.1.cons₂ c, h1.2.cons c⟩

theorem scanLit_mem (esc : Bool) (delim : Char) (l : List Char) :
    (∀ c ∈ (scanLit esc delim l).1, c ∈ l) ∧ (∀ c ∈ (scanLit esc delim l).2, c ∈ l) :=
  ⟨fun _ hc => (scanLit_sublist esc delim l).1.subset hc,
   fun _ hc => (scanLit_sublist esc delim l).2.subset hc⟩

theorem scanLit_cons_plain (esc : Bool) (delim : Char) (b : Char) (l : List Char)
    (hbd : b ≠ delim) (hbs : esc = true → b ≠ '\\') :
    scanLit esc delim (b :: l) =
      (b :: (scanLit esc delim l).1, (scanLit esc delim l).2) := by
  have hesc : (esc && b = '\\') = false := by
    cases esc
    · simp
    · simp [hbs rfl]
  cases l with
  | nil => simp [scanLit]
  | cons d rest =>
    rw [scanLit]
    simp [hesc, hbd]

theorem scanLit_clean_run (esc : Bool) (delim : Char) :
    ∀ (pre l : List Char), delim ∉ pre → (esc = true → '\\' ∉ pre) →
      scanLit esc delim (pre ++ l) =
        (pre ++ (scanLit esc delim l).1, (scanLit esc delim l).2) := by
  intro pre
  induction pre with
  | nil => intro l _ _; simp
  | cons b bs ih =>
    intro l hb hbs
    have hbd : b ≠ delim := fun e => hb (by simp [e])
    have hbsl : esc = true → b ≠ '\\' := fun he e => (hbs he) (by simp [e])
    have step := scanLit_cons_plain esc delim b (bs ++ l) hbd hbsl
    have ihres := ih l (fun h => hb (by simp [h])) (fun he h => (hbs he) (by simp [h]))
    simp only [List.cons_append, step, ihres]

theorem scanLit_at_close (esc : Bool) (delim : Char)
    (hde : esc = true → delim ≠ '\\') :
    ∀ rest : List Char, (∀ c, rest.head? = some c → c ≠ delim) →
      scanLit esc delim (delim :: rest) = ([delim], rest) := by
  intro rest hr
  cases rest with
  | nil => simp [scanLit]
  | cons d rs =>
    have hd : d ≠ delim := hr d rfl
    have hesc : (esc && delim = '\\') = false := by
      cases esc
      · simp
      · simp [hde rfl]
    rw [scanLit]
    simp [hesc, hd]

theorem scanLit_at_doubled (esc : Bool) (delim : Char)
    (hde : esc = true → delim ≠ '\\') (l : List Char) :
    scanLit esc delim (delim :: delim :: l) =
      (delim :: delim :: (scanLit esc delim l).1, (scanLit esc delim l).2) := by
  have hesc : (esc && delim = '\\') = false := by
    cases esc
    · simp
    · simp [hde rfl]
  rw [scanLit]
  simp [hesc]

theorem scanLit_at_backslash (delim : Char) (c : Char) (l : List Char) :
    scanLit true delim ('\\' :: c :: l) =
      ('\\' :: c :: (scanLit true delim l).1, (scanLit true delim l).2) := by
  rw [scanLit]
  simp

theorem scanLit_unterminated (esc : Bool) (delim : Char) :
    ∀ body : List Char, delim ∉ body → (esc = true → '\\' ∉ body) →
      scanLit esc delim body = (body, []) := by
  intro body hb hbs
  have := scanLit_clean_run esc delim body [] hb hbs
  simpa [scanLit] using this

theorem scanLit_closes (esc : Bool) (delim : Char)
    (hde : esc = true → delim ≠ '\\') (body rest : List Char)
    (hb : delim ∉ body) (hbs : esc = true → '\\' ∉ body)
    (hr : ∀ c, rest.head? = some c → c ≠ delim) :
    scanLit esc delim (body ++ delim :: rest) = (body ++ [delim], rest) := by
  rw [scanLit_clean_run esc delim body _ hb hbs,
    scanLit_at_close esc delim hde rest hr]

/-! ### Single steps of the rewriter loop -/

theorem backquote_ne_squote : backquoteChar ≠ '\'' := by decide

theorem backquote_ne_dquote : backquoteChar ≠ '"' := by decide

theorem backquote_ne_colon : backquoteChar ≠ ':' := by decide

theorem parseAux_nil {α : Type} (drv : Driver) (params : List (String × α)) (n : Nat) :
    parseAux drv params n [] = .ok ([], []) := by
  simp [parseAux]

theorem parseAux_copy {α : Type} (drv : Driver) (params : List (String × α)) (n : Nat)
    (c : Char) (l : List Char) (hc : plainChar c = true) :
    parseAux drv params n (c :: l) =
      (parseAux drv params n l).map (fun pr => (c :: pr.1, pr.2)) := by
  simp only [plainChar, Bool.not_eq_true', Bool.or_eq_false_iff, decide_eq_false_iff_not] at hc
  obtain ⟨⟨⟨h1, h2⟩, h3⟩, h4⟩ := hc
  rw [parseAux.eq_def]
  simp only [if_neg h1, if_neg h2, if_neg h3, if_neg h4]
  cases parseAux drv params n l with
  | ok pr => cases pr; simp [Except.map]
  | error e => simp [Except.map]

theorem parseAux_squote {α : Type} (drv : Driver) (params : List (String × α)) (n : Nat)
    (l : List Char) :
    parseAux drv params n ('\'' :: l) =
      (parseAux drv params n (scanLit (SupportsBackslashEscape drv) '\'' l).2).map
        (fun pr => ('\'' :: (scanLit (SupportsBackslashEscape drv) '\'' l).1 ++ pr.1, pr.2)) := by
  rw [parseAux.eq_def]
  simp only [if_pos rfl]
  cases parseAux drv params n (scanLit (SupportsBackslashEscape drv) '\'' l).2 with
  | ok pr => cases pr; simp [Except.map]
  | error e => simp [Except.map]

theorem parseAux_dquote {α : Type} (drv : Driver) (params : List (String × α)) (n : Nat)
    (l : List Char) :
    parseAux drv params n ('"' :: l) =
      (parseAux drv params n (scanLit (SupportsBackslashEscape drv) '"' l).2).map
        (fun pr => ('"' :: (scanLit (SupportsBackslashEscape drv) '"' l).1 ++ pr.1, pr.2)) := by
  rw [parseAux.eq_def]
  simp only [if_pos rfl, if_neg (by decide : ¬('"' : Char) = '\'')]
  cases parseAux drv params n (scanLit (SupportsBackslashEscape drv) '"' l).2 with
  | ok pr => cases pr; simp [Except.map]
  | error e => simp [Except.map]

theorem parseAux_bquote {α : Type} (drv : Driver) (params : List (String × α)) (n : Nat)
    (l : List Char) :
    parseAux drv params n (backquoteChar :: l) =
      (parseAux drv params n (scanLit false backquoteChar l).2).map
        (fun pr => (backquoteChar :: (scanLit false backquoteChar l).1 ++ pr.1, pr.2)) := by
  rw [parseAux.eq_def]
  simp only [if_pos rfl, if_neg backquote_ne_squote, if_neg backquote_ne_dquote]
  cases parseAux drv params n (scanLit false backquoteChar l).2 with
  | ok pr => cases pr; simp [Except.map]
  | error e => simp [Except.map]

theorem parseAux_dcolon {α : Type} (drv : Driver) (params : List (String × α)) (n : Nat)
    (l : List Char) :
    parseAux drv params n (':' :: ':' :: l) =
      (parseAux drv params n l).map (fun pr => (':' :: ':' :: pr.1, pr.2)) := by
  rw [parseAux.eq_def]
  simp only [if_pos rfl, if_neg (by decide : ¬(':' : Char) = '\''),
    if_neg (by decide : ¬(':' : Char) = '"'),
    if_neg (Ne.symm backquote_ne_colon)]
  cases parseAux drv params n l with
  | ok pr => cases pr; simp [Except.map]
  | error e => simp [Except.map]

theorem isParamStart_ne_colon {d : Char} (hd : isParamStart d = true) : d ≠ ':' := by
  intro e
  subst e
  simp [isParamStart] at hd

theorem parseAux_param {α : Type} (drv : Driver) (params : List (String × α)) (n : Nat)
    (d : Char) (rest2 : List Char) (hd : isParamStart d = true) :
    parseAux drv params n (':' :: d :: rest2) =
      match params.lookup ⟨(d :: rest2).takeWhile isParamChar⟩ with
      | none =>
        .error ("missing parameter: " ++ (⟨(d :: rest2).takeWhile isParamChar⟩ : String))
      | some v =>
        (parseAux drv params (n + 1) ((d :: rest2).dropWhile isParamChar)).map
          (fun pr => ((Placeholder drv (n + 1)).data ++ pr.1, v :: pr.2)) := by
  have hdc : d ≠ ':' := isParamStart_ne_colon hd
  rw [parseAux.eq_def]
  simp only [if_pos rfl, if_neg (by decide : ¬(':' : Char) = '\''),
    if_neg (by decide : ¬(':' : Char) = '"'),
    if_neg (Ne.symm backquote_ne_colon), if_neg hdc, if_pos hd]
  cases params.lookup (⟨(d :: rest2).takeWhile isParamChar⟩ : String) with
  | none => simp
  | some v =>
    simp only
    cases parseAux drv params (n + 1) ((d :: rest2).dropWhile isParamChar) with
    | ok pr => cases pr; simp [Except.map]
    | error e => simp [Except.map]

theorem parseAux_bare_colon {α : Type} (drv : Driver) (params : List (String × α)) (n : Nat)
    (d : Char) (rest2 : List Char) (hdc : d ≠ ':') (hns : isParamStart d = false) :
    parseAux drv params n (':' :: d :: rest2) =
      (parseAux drv params n (d :: rest2)).map (fun pr => (':' :: pr.1, pr.2)) := by
  rw [parseAux.eq_def]
  simp only [if_pos rfl, if_neg (by decide : ¬(':' : Char) = '\''),
    if_neg (by decide : ¬(':' : Char) = '"'),
    if_neg (Ne.symm backquote_ne_colon), if_neg hdc, hns]
  simp only [Bool.false_eq_true, if_false]
  cases parseAux drv params n (d :: rest2) with
  | ok pr => cases pr; simp [Except.map]
  | error e => simp [Except.map]

theorem parseAux_colon_end {α : Type} (drv : Driver) (params : List (String × α)) (n : Nat) :
    parseAux drv params n [':'] = .ok ([':'], []) := by
  rw [parseAux.eq_def]
  simp [if_neg (Ne.symm backquote_ne_colon)]

/-! ### Composite behaviour of the rewriter loop -/

theorem parseAux_plain_run {α : Type} (drv : Driver) (params : List (String × α)) :
    ∀ (pre l : List Char) (n : Nat), (∀ c ∈ pre, plainChar c = true) →
      parseAux drv params n (pre ++ l) =
        (parseAux drv params n l).map (fun pr => (pre ++ pr.1, pr.2)) := by
  intro pre
  induction pre with
  | nil =>
    intro l n _
    simp only [List.nil_append]
    cases h : parseAux drv params n l with
    | ok pr => cases pr; simp [Except.map]
    | error e => simp [Except.map]
  | cons b bs ih =>
    intro l n hp
    have hb : plainChar b = true := hp b (by simp)
    rw [List.cons_append, parseAux_copy drv params n b (bs ++ l) hb,
      ih l n (fun c hc => hp c (by simp [hc]))]
    cases parseAux drv params n l with
    | ok pr => cases pr; simp [Except.map]
    | error e => simp [Except.map]

theorem not_plain_cases {c : Char} (h : ¬plainChar c = true) :
    c = '\'' ∨ c = '"' ∨ c = backquoteChar ∨ c = ':' := by
  by_contra hcon
  push_neg at hcon
  obtain ⟨h1, h2, h3, h4⟩ := hcon
  exact h (by simp [plainChar, h1, h2, h3, h4])

theorem parseAux_error_form {α : Type} (drv : Driver) (params : List (String × α)) :
    ∀ (N : Nat) (l : List Char), l.length ≤ N → ∀ n : Nat,
      (∃ pr, parseAux drv params n l = .ok pr) ∨
        (∃ nm : String, parseAux drv params n l = .error ("missing parameter: " ++ nm) ∧
          params.lookup nm = none) := by
  intro N
  induction N with
  | zero =>
    intro l hl n
    have : l = [] := by cases l <;> simp_all
    subst this
    exact .inl ⟨([], []), parseAux_nil drv params n⟩
  | succ N ih =>
    intro l hl n
    cases l with
    | nil => exact .inl ⟨([], []), parseAux_nil drv params n⟩
    | cons c rest =>
      simp only [List.length_cons] at hl
      by_cases hpl : plainChar c = true
      · rw [parseAux_copy drv params n c rest hpl]
        rcases ih rest (by omega) n with ⟨pr, hpr⟩ | ⟨nm, hnm, hlk⟩
        · exact .inl ⟨_, by rw [hpr]; rfl⟩
        · exact .inr ⟨nm, by rw [hnm]; rfl, hlk⟩
      · rcases not_plain_cases hpl with hc | hc | hc | hc
        · subst hc
          rw [parseAux_squote]
          have hle := scanLitRestLe (SupportsBackslashEscape drv) '\'' rest
          rcases ih ((scanLit (SupportsBackslashEscape drv) '\'' rest).2) (by omega) n with ⟨pr, hpr⟩ | ⟨nm, hnm, hlk⟩
          · exact .inl ⟨_, by rw [hpr]; rfl⟩
          · exact .inr ⟨nm, by rw [hnm]; rfl, hlk⟩
        · subst hc
          rw [parseAux_dquote]
          have hle := scanLitRestLe (SupportsBackslashEscape drv) '"' rest
          rcases ih ((scanLit (SupportsBackslashEscape drv) '"' rest).2) (by omega) n with ⟨pr, hpr⟩ | ⟨nm, hnm, hlk⟩
          · exact .inl ⟨_, by rw [hpr]; rfl⟩
          · exact .inr ⟨nm, by rw [hnm]; rfl, hlk⟩
        · subst hc
          rw [parseAux_bquote]
          have hle := scanLitRestLe false backquoteChar rest
          rcases ih ((scanLit false backquoteChar rest).2) (by omega) n with ⟨pr, hpr⟩ | ⟨nm, hnm, hlk⟩
          · exact .inl ⟨_, by rw [hpr]; rfl⟩
          · exact .inr ⟨nm, by rw [hnm]; rfl, hlk⟩
        · subst hc
          cases rest with
          | nil => exact .inl ⟨_, parseAux_colon_end drv params n⟩
          | cons d rest2 =>
            simp only [List.length_cons] at hl
            by_cases hdc : d = ':'
            · subst hdc
              rw [parseAux_dcolon]
              rcases ih rest2 (by omega) n with ⟨pr, hpr⟩ | ⟨nm, hnm, hlk⟩
              · exact .inl ⟨_, by rw [hpr]; rfl⟩
              · exact .inr ⟨nm, by rw [hnm]; rfl, hlk⟩
            · by_cases hps : isParamStart d = true
              · rw [parseAux_param drv params n d rest2 hps]
                cases hlk : params.lookup (⟨(d :: rest2).takeWhile isParamChar⟩ : String) with
                | none => exact .inr ⟨_, rfl, hlk⟩
                | some v =>
                  have hdr := dropWhileLengthLe isParamChar (d :: rest2)
                  simp only [List.length_cons] at hdr
                  rcases ih ((d :: rest2).dropWhile isParamChar) (by omega) (n + 1) with ⟨pr, hpr⟩ | ⟨nm, hnm, hlk2⟩
                  · exact .inl ⟨_, by rw [hpr]; rfl⟩
                  · exact .inr ⟨nm, by rw [hnm]; rfl, hlk2⟩
              · rw [parseAux_bare_colon drv params n d rest2 hdc (by simpa using hps)]
                rcases ih (d :: rest2) (by simp; omega) n with ⟨pr, hpr⟩ | ⟨nm, hnm, hlk⟩
                · exact .inl ⟨_, by rw [hpr]; rfl⟩
                · exact .inr ⟨nm, by rw [hnm]; rfl, hlk⟩

/-! ### Extracting placeholders from emitted text -/

theorem pgPHList_nil : pgPHList [] = [] := by
  rw [pgPHList.eq_def]

theorem pgPHList_cons_ne (c : Char) (l : List Char) (hc : c ≠ '$') :
    pgPHList (c :: l) = pgPHList l := by
  rw [pgPHList.eq_def]
  simp [hc]

theorem pgPHList_dollar (ds b : List Char) (hds : ds ≠ [])
    (hall : ∀ c ∈ ds, c.isDigit = true)
    (hb : ∀ c, b.head? = some c → c.isDigit = false) :
    pgPHList ('$' :: ds ++ b) = ds :: pgPHList b := by
  obtain ⟨htake, hdrop⟩ := takeWhile_append_of_all ds b hall hb
  rw [pgPHList.eq_def]
  simp [htake, hdrop, hds]

theorem pgPHList_clean_run :
    ∀ (a b : List Char), '$' ∉ a → pgPHList (a ++ b) = pgPHList b := by
  intro a
  induction a with
  | nil => intro b _; simp
  | cons c cs ih =>
    intro b ha
    have hc : c ≠ '$' := fun e => ha (by simp [e])
    rw [List.cons_append, pgPHList_cons_ne c _ hc, ih b (fun h => ha (by simp [h]))]

theorem dropWhile_subset (p : Char → Bool) :
    ∀ l : List Char, ∀ c ∈ l.dropWhile p, c ∈ l := by
  intro l
  induction l with
  | nil => simp
  | cons x xs ih =>
    intro c hc
    rw [List.dropWhile] at hc
    split at hc
    · exact .tail x (ih c hc)
    · exact hc

theorem dropWhile_head_not (p : Char → Bool) :
    ∀ l : List Char, ∀ c, (l.dropWhile p).head? = some c → p c = false := by
  intro l
  induction l with
  | nil => simp
  | cons x xs ih =>
    intro c hc
    rw [List.dropWhile] at hc
    split at hc
    · exact ih c hc
    · rename_i hx
      simp only [List.head?_cons, Option.some.injEq] at hc
      subst hc
      simpa using hx

theorem isDigit_isParamChar {c : Char} (h : c.isDigit = true) : isParamChar c = true := by
  simp [isParamChar, h]

theorem map_eq_ok {σ τ : Type} {f : σ → τ} {e : Except String σ} {y : τ}
    (h : e.map f = .ok y) :
    ∃ x, e = .ok x ∧ f x = y := by
  cases e with
  | ok pr => exact ⟨pr, rfl, by simpa [Except.map] using h⟩
  | error e => simp [Except.map] at h

theorem parseAux_pg_phList {α : Type} (params : List (String × α)) :
    ∀ (N : Nat) (l : List Char), l.length ≤ N → ∀ (n : Nat) (t : List Char) (args : List α),
      '$' ∉ l → parseAux .postgreSQL params n l = .ok (t, args) →
      pgPHList t = (List.range args.length).map (fun i => (Nat.repr (n + 1 + i)).data) ∧
        (∀ c, t.head? = some c → l.head? = some c ∨ c.isDigit = false) := by
  intro N
  induction N with
  | zero =>
    intro l hl n t args _ h
    have hnil : l = [] := by cases l <;> simp_all
    subst hnil
    rw [parseAux_nil] at h
    simp only [Except.ok.injEq, Prod.mk.injEq] at h
    obtain ⟨h1, h2⟩ := h
    subst h1
    subst h2
    exact ⟨by simp [pgPHList_nil], by simp⟩
  | succ N ih =>
    intro l hl n t args hd h
    cases l with
    | nil =>
      rw [parseAux_nil] at h
      simp only [Except.ok.injEq, Prod.mk.injEq] at h
      obtain ⟨h1, h2⟩ := h
      subst h1
      subst h2
      exact ⟨by simp [pgPHList_nil], by simp⟩
    | cons c rest =>
      simp only [List.length_cons] at hl
      have hcne : c ≠ '$' := fun e => hd (by simp [e])
      have hrest : '$' ∉ rest := fun hr => hd (by simp [hr])
      by_cases hpl : plainChar c = true
      · rw [parseAux_copy _ _ _ _ _ hpl] at h
        obtain ⟨pr, hX, hf⟩ := map_eq_ok h
        cases hf
        obtain ⟨hph, hhd⟩ := ih rest (by omega) n pr.1 pr.2 hrest hX
        refine ⟨by rw [pgPHList_cons_ne c _ hcne]; exact hph, ?_⟩
        intro x hx
        simp only [List.head?_cons, Option.some.injEq] at hx ⊢
        exact .inl hx
      · rcases not_plain_cases hpl with hc | hc | hc | hc
        · subst hc
          rw [parseAux_squote] at h
          obtain ⟨pr, hX, hf⟩ := map_eq_ok h
          cases hf
          have hsub : '$' ∉ (scanLit (SupportsBackslashEscape .postgreSQL) '\'' rest).2 :=
            fun hx => hrest ((scanLit_mem _ _ rest).2 _ hx)
          have hbody : '$' ∉ (scanLit (SupportsBackslashEscape .postgreSQL) '\'' rest).1 :=
            fun hx => hrest ((scanLit_mem _ _ rest).1 _ hx)
          have hle := scanLitRestLe (SupportsBackslashEscape .postgreSQL) '\'' rest
          obtain ⟨hph, _⟩ := ih _ (by omega) n pr.1 pr.2 hsub hX
          refine ⟨?_, ?_⟩
          · simp only [List.cons_append]
            rw [pgPHList_cons_ne '\'' _ (by decide), pgPHList_clean_run _ _ hbody]
            exact hph
          · intro x hx
            simp only [List.cons_append, List.head?_cons, Option.some.injEq] at hx
            subst hx
            exact .inr (by decide)
        · subst hc
          rw [parseAux_dquote] at h
          obtain ⟨pr, hX, hf⟩ := map_eq_ok h
          cases hf
          have hsub : '$' ∉ (scanLit (SupportsBackslashEscape .postgreSQL) '"' rest).2 :=
            fun hx => hrest ((scanLit_mem _ _ rest).2 _ hx)
          have hbody : '$' ∉ (scanLit (SupportsBackslashEscape .postgreSQL) '"' rest).1 :=
            fun hx => hrest ((scanLit_mem _ _ rest).1 _ hx)
          have hle := scanLitRestLe (SupportsBackslashEscape .postgreSQL) '"' rest
          obtain ⟨hph, _⟩ := ih _ (by omega) n pr.1 pr.2 hsub hX
          refine ⟨?_, ?_⟩
          · simp only [List.cons_append]
            rw [pgPHList_cons_ne '"' _ (by decide), pgPHList_clean_run _ _ hbody]
            exact hph
          · intro x hx
            simp only [List.cons_append, List.head?_cons, Option.some.injEq] at hx
            subst hx
            exact .inr (by decide)
        · subst hc
          rw [parseAux_bquote] at h
          obtain ⟨pr, hX, hf⟩ := map_eq_ok h
          cases hf
          have hsub : '$' ∉ (scanLit false backquoteChar rest).2 :=
            fun hx => hrest ((scanLit_mem _ _ rest).2 _ hx)
          have hbody : '$' ∉ (scanLit false backquoteChar rest).1 :=
            fun hx => hrest ((scanLit_mem _ _ rest).1 _ hx)
          have hle := scanLitRestLe false backquoteChar rest
          obtain ⟨hph, _⟩ := ih _ (by omega) n pr.1 pr.2 hsub hX
          refine ⟨?_, ?_⟩
          · simp only [List.cons_append]
            rw [pgPHList_cons_ne backquoteChar _ (by decide), pgPHList_clean_run _ _ hbody]
            exact hph
          · intro x hx
            simp only [List.cons_append, List.head?_cons, Option.some.injEq] at hx
            subst hx
            exact .inr (by decide)
        · subst hc
          cases rest with
          | nil =>
            rw [parseAux_colon_end] at h
            simp only [Except.ok.injEq, Prod.mk.injEq] at h
            obtain ⟨h1, h2⟩ := h
            subst h1
            subst h2
            refine ⟨?_, ?_⟩
            · rw [pgPHList_cons_ne ':' _ (by decide), pgPHList_nil]
              simp
            · intro x hx
              simp only [List.head?_cons, Option.some.injEq] at hx ⊢
              exact .inl hx
          | cons d rest2 =>
            simp only [List.length_cons] at hl
            have hrest2 : '$' ∉ rest2 := fun hr => hrest (by simp [hr])
            by_cases hdc : d = ':'
            · subst hdc
              rw [parseAux_dcolon] at h
              obtain ⟨pr, hX, hf⟩ := map_eq_ok h
              cases hf
              obtain ⟨hph, _⟩ := ih rest2 (by omega) n pr.1 pr.2 hrest2 hX
              refine ⟨?_, ?_⟩
              · rw [pgPHList_cons_ne ':' _ (by decide), pgPHList_cons_ne ':' _ (by decide)]
                exact hph
              · intro x hx
                simp only [List.head?_cons, Option.some.injEq] at hx ⊢
                exact .inl hx
            · by_cases hps : isParamStart d = true
              · rw [parseAux_param _ _ _ _ _ hps] at h
                cases hlk : params.lookup (⟨(d :: rest2).takeWhile isParamChar⟩ : String) with
                | none => rw [hlk] at h; simp at h
                | some v =>
                  rw [hlk] at h
                  simp only at h
                  obtain ⟨pr, hX, hf⟩ := map_eq_ok h
                  cases hf
                  have hsub : '$' ∉ (d :: rest2).dropWhile isParamChar := fun hx =>
                    hrest (dropWhile_subset isParamChar (d :: rest2) _ hx)
                  have hdr := dropWhileLengthLe isParamChar (d :: rest2)
                  simp only [List.length_cons] at hdr
                  obtain ⟨hph, hhd⟩ := ih _ (by omega) (n + 1) pr.1 pr.2 hsub hX
                  have hphd : (Placeholder .postgreSQL (n + 1)).data =
                      '$' :: (Nat.repr (n + 1)).data := by
                    show ("$" ++ Nat.repr (n + 1)).data = _
                    rw [String.data_append]
                    rfl
                  have htailhd : ∀ x, pr.1.head? = some x → x.isDigit = false := by
                    intro x hx
                    rcases hhd x hx with hx2 | hx2
                    · have := dropWhile_head_not isParamChar (d :: rest2) x hx2
                      by_contra hdig
                      rw [isDigit_isParamChar (by simpa using hdig)] at this
                      exact absurd this (by decide)
                    · exact hx2
                  refine ⟨?_, ?_⟩
                  · rw [hphd,
                      pgPHList_dollar _ _ (repr_ne_nil (n + 1)) (repr_digit (n + 1)) htailhd,
                      hph]
                    rw [List.length_cons, List.range_succ_eq_map, List.map_cons, List.map_map]
                    refine congrArg₂ _ (by simp) ?_
                    refine List.map_congr_left ?_
                    intro i _
                    have : n + 1 + 1 + i = n + 1 + Nat.succ i := by omega
                    simp [Function.comp, this]
                  · intro x hx
                    rw [hphd] at hx
                    simp only [List.cons_append, List.head?_cons, Option.some.injEq] at hx
                    subst hx
                    exact .inr (by decide)
              · rw [parseAux_bare_colon _ _ _ _ _ hdc (by simpa using hps)] at h
                obtain ⟨pr, hX, hf⟩ := map_eq_ok h
                cases hf
                have hdrest : '$' ∉ d :: rest2 := fun hr => hrest hr
                obtain ⟨hph, _⟩ := ih (d :: rest2) (by simp; omega) n pr.1 pr.2 hdrest hX
                refine ⟨?_, ?_⟩
                · rw [pgPHList_cons_ne ':' _ (by decide)]
                  exact hph
                · intro x hx
                  simp only [List.head?_cons, Option.some.injEq] at hx ⊢
                  exact .inl hx

theorem parseAux_qm_count {α : Type} (drv : Driver) (params : List (String × α))
    (hq : drv = .mySQL ∨ drv = .sqlite) :
    ∀ (N : Nat) (l : List Char), l.length ≤ N → ∀ (n : Nat) (t : List Char) (args : List α),
      '?' ∉ l → parseAux drv params n l = .ok (t, args) →
      t.count '?' = args.length := by
  have hph : ∀ k, (Placeholder drv k).data = ['?'] := by
    rcases hq with h | h <;> subst h <;> intro k <;> rfl
  intro N
  induction N with
  | zero =>
    intro l hl n t args _ h
    have hnil : l = [] := by cases l <;> simp_all
    subst hnil
    rw [parseAux_nil] at h
    simp only [Except.ok.injEq, Prod.mk.injEq] at h
    obtain ⟨h1, h2⟩ := h
    subst h1
    subst h2
    simp
  | succ N ih =>
    intro l hl n t args hd h
    cases l with
    | nil =>
      rw [parseAux_nil] at h
      simp only [Except.ok.injEq, Prod.mk.injEq] at h
      obtain ⟨h1, h2⟩ := h
      subst h1
      subst h2
      simp
    | cons c rest =>
      simp only [List.length_cons] at hl
      have hcne : c ≠ '?' := fun e => hd (by simp [e])
      have hrest : '?' ∉ rest := fun hr => hd (by simp [hr])
      by_cases hpl : plainChar c = true
      · rw [parseAux_copy _ _ _ _ _ hpl] at h
        obtain ⟨pr, hX, hf⟩ := map_eq_ok h
        cases hf
        have hcount := ih rest (by omega) n pr.1 pr.2 hrest hX
        simp [List.count_cons, hcne, hcount]
      · rcases not_plain_cases hpl with hc | hc | hc | hc
        · subst hc
          rw [parseAux_squote] at h
          obtain ⟨pr, hX, hf⟩ := map_eq_ok h
          cases hf
          have hsub : '?' ∉ (scanLit (SupportsBackslashEscape drv) '\'' rest).2 :=
            fun hx => hrest ((scanLit_mem _ _ rest).2 _ hx)
          have hbody : (scanLit (SupportsBackslashEscape drv) '\'' rest).1.count '?' = 0 :=
            List.count_eq_zero.mpr (fun hx => hrest ((scanLit_mem _ _ rest).1 _ hx))
          have hle := scanLitRestLe (SupportsBackslashEscape drv) '\'' rest
          have hcount := ih _ (by omega) n pr.1 pr.2 hsub hX
          simp [List.cons_append, List.count_cons, List.count_append, hbody, hcount]
        · subst hc
          rw [parseAux_dquote] at h
          obtain ⟨pr, hX, hf⟩ := map_eq_ok h
          cases hf
          have hsub : '?' ∉ (scanLit (SupportsBackslashEscape drv) '"' rest).2 :=
            fun hx => hrest ((scanLit_mem _ _ rest).2 _ hx)
          have hbody : (scanLit (SupportsBackslashEscape drv) '"' rest).1.count '?' = 0 :=
            List.count_eq_zero.mpr (fun hx => hrest ((scanLit_mem _ _ rest).1 _ hx))
          have hle := scanLitRestLe (SupportsBackslashEscape drv) '"' rest
          have hcount := ih _ (by omega) n pr.1 pr.2 hsub hX
          simp [List.cons_append, List.count_cons, List.count_append, hbody, hcount]
        · subst hc
          rw [parseAux_bquote] at h
          obtain ⟨pr, hX, hf⟩ := map_eq_ok h
          cases hf
          have hsub : '?' ∉ (scanLit false backquoteChar rest).2 :=
            fun hx => hrest ((scanLit_mem _ _ rest).2 _ hx)
          have hbody : (scanLit false backquoteChar rest).1.count '?' = 0 :=
            List.count_eq_zero.mpr (fun hx => hrest ((scanLit_mem _ _ rest).1 _ hx))
          have hle := scanLitRestLe false backquoteChar rest
          have hcount := ih _ (by omega) n pr.1 pr.2 hsub hX
          simp [List.cons_append, List.count_cons, List.count_append, hbody, hcount,
            (by decide : (backquoteChar == '?') = false)]
        · subst hc
          cases rest with
          | nil =>
            rw [parseAux_colon_end] at h
            simp only [Except.ok.injEq, Prod.mk.injEq] at h
            obtain ⟨h1, h2⟩ := h
            subst h1
            subst h2
            simp
          | cons d rest2 =>
            simp only [List.length_cons] at hl
            have hrest2 : '?' ∉ rest2 := fun hr => hrest (by simp [hr])
            by_cases hdc : d = ':'
            · subst hdc
              rw [parseAux_dcolon] at h
              obtain ⟨pr, hX, hf⟩ := map_eq_ok h
              cases hf
              have hcount := ih rest2 (by omega) n pr.1 pr.2 hrest2 hX
              simp [List.count_cons, hcount]
            · by_cases hps : isParamStart d = true
              · rw [parseAux_param _ _ _ _ _ hps] at h
                cases hlk : params.lookup (⟨(d :: rest2).takeWhile isParamChar⟩ : String) with
                | none => rw [hlk] at h; simp at h
                | some v =>
                  rw [hlk] at h
                  simp only at h
                  obtain ⟨pr, hX, hf⟩ := map_eq_ok h
                  cases hf
                  have hsub : '?' ∉ (d :: rest2).dropWhile isParamChar := fun hx =>
                    hrest (dropWhile_subset isParamChar (d :: rest2) _ hx)
                  have hdr := dropWhileLengthLe isParamChar (d :: rest2)
                  simp only [List.length_cons] at hdr
                  have hcount := ih _ (by omega) (n + 1) pr.1 pr.2 hsub hX
                  rw [hph (n + 1)]
                  simp [List.count_cons, List.count_append, hcount]
              · rw [parseAux_bare_colon _ _ _ _ _ hdc (by simpa using hps)] at h
                obtain ⟨pr, hX, hf⟩ := map_eq_ok h
                cases hf
                have hcount := ih (d :: rest2) (by simp; omega) n pr.1 pr.2 hrest hX
                simp [List.count_cons, hcount]

/-! ### The renumbering primitive -/

theorem renumAux_copy (off : Nat) :
    ∀ (p rest : List Char), '$' ∉ p →
      renumAux off false (p ++ rest) = p ++ renumAux off false rest := by
  intro p
  induction p with
  | nil => intro rest _; simp
  | cons c cs ih =>
    intro rest hp
    have hc : c ≠ '$' := fun e => hp (by simp [e])
    simp only [List.cons_append, renumAux, if_neg hc, Bool.false_eq_true, if_false,
      List.append_eq]
    rw [ih rest (fun h => hp (by simp [h]))]

theorem renumAux_dollar (off : Nat) (l : List Char) :
    renumAux off false ('$' :: l) = '$' :: renumAux off true l := by
  simp [renumAux]

theorem renumAux_skip_digits (off : Nat) :
    ∀ (ds l : List Char), (∀ c ∈ ds, c.isDigit = true) →
      renumAux off true (ds ++ l) = renumAux off true l := by
  intro ds
  induction ds with
  | nil => intro l _; simp
  | cons c cs ih =>
    intro l hds
    have hc : c.isDigit = true := hds c (by simp)
    have hcd : c ≠ '$' := isDigit_ne hc (by decide)
    have hrange : ('0' ≤ c && c ≤ '9') = true := hc
    simp only [List.cons_append, renumAux, if_neg hcd, hrange, if_true]
    exact ih l (fun x hx => hds x (by simp [hx]))

theorem renumAux_flush_nil (off : Nat) :
    renumAux off true [] = (Nat.repr (off + 1)).data := by
  simp [renumAux]

theorem renumAux_flush_char (off : Nat) (c : Char) (l : List Char)
    (hcd : c ≠ '$') (hdig : c.isDigit = false) :
    renumAux off true (c :: l) =
      (Nat.repr (off + 1)).data ++ c :: renumAux (off + 1) false l := by
  have hrange : ('0' ≤ c && c ≤ '9') = false := hdig
  simp [renumAux, hcd, hrange]

theorem fragChars_cons (c : Char) (tl : List Char) (ps : List (List Char)) (s : Nat) :
    fragChars (c :: tl) ps s = c :: fragChars tl ps s := by
  cases ps with
  | nil => rfl
  | cons q qs => simp [fragChars]

theorem renumAux_fragChars :
    ∀ (mids : List (List Char)) (p0 : List Char) (off s : Nat),
      '$' ∉ p0 → (∀ p ∈ mids, '$' ∉ p ∧ headDigit p = false) →
      (∀ p ∈ mids.dropLast, p ≠ []) →
      renumAux off false (fragChars p0 mids s) = fragChars p0 mids (off + 1) := by
  intro mids
  induction mids with
  | nil =>
    intro p0 off s hp0 _ _
    calc renumAux off false (fragChars p0 [] s)
        = renumAux off false (p0 ++ []) := by simp [fragChars]
      _ = p0 ++ renumAux off false [] := renumAux_copy off p0 [] hp0
      _ = p0 := by simp [renumAux]
      _ = fragChars p0 [] (off + 1) := rfl
  | cons p ps ih =>
    intro p0 off s hp0 hmids hmid
    show renumAux off false (p0 ++ '$' :: (Nat.repr s).data ++ fragChars p ps (s + 1)) = _
    rw [List.append_assoc, renumAux_copy off p0 _ hp0, List.cons_append,
      renumAux_dollar, renumAux_skip_digits off _ _ (repr_digit s)]
    have hpconds := hmids p (by simp)
    cases hpcase : p with
    | nil =>
      cases ps with
      | nil =>
        show p0 ++ '$' :: renumAux off true (fragChars [] [] (s + 1)) = _
        show p0 ++ '$' :: renumAux off true [] = _
        rw [renumAux_flush_nil]
        simp [fragChars]
      | cons q qs =>
        exfalso
        have := hmid p (by simp [hpcase, List.dropLast])
        simp [hpcase] at this
    | cons c tl =>
      have hcd : c ≠ '$' := fun e => (hpconds.1 (by simp [hpcase, e]))
      have hdig : c.isDigit = false := by
        have := hpconds.2
        rw [hpcase] at this
        simpa [headDigit] using this
      rw [fragChars_cons, renumAux_flush_char off c _ hcd hdig]
      have htl : '$' ∉ tl := fun h => hpconds.1 (by simp [hpcase, h])
      have hih := ih tl (off + 1) (s + 1) htl
        (fun q hq => hmids q (by simp [hq]))
        (fun q hq => by
          cases ps with
          | nil => simp at hq
          | cons r rs =>
            exact hmid q (by
              simp only [List.dropLast] at hq ⊢
              simp_all [List.dropLast_cons_of_ne_nil]))
      rw [hih]
      show _ = p0 ++ '$' :: (Nat.repr (off + 1)).data ++ fragChars (c :: tl) ps (off + 1 + 1)
      rw [fragChars_cons]
      simp

theorem fragChars_contains_dollar (p0 : List Char) (p : List Char)
    (ps : List (List Char)) (s : Nat) :
    '$' ∈ fragChars p0 (p :: ps) s := by
  show '$' ∈ p0 ++ '$' :: (Nat.repr s).data ++ fragChars p ps (s + 1)
  simp

theorem numberedFragment_data :
    ∀ (mids : List String) (p0 : String) (s : Nat),
      (numberedFragment p0 mids s).data = fragChars p0.data (mids.map String.data) s := by
  intro mids
  induction mids with
  | nil => intro p0 s; rfl
  | cons p ps ih =>
    intro p0 s
    show (p0 ++ "$" ++ Nat.repr s ++ numberedFragment p ps (s + 1)).data = _
    rw [String.data_append, String.data_append, String.data_append, ih p (s + 1)]
    show p0.data ++ ['$'] ++ (Nat.repr s).data ++ _ = p0.data ++ '$' :: (Nat.repr s).data ++ _
    simp

theorem pgRenumberPlaceholders_fragment (p0 : String) (mids : List String) (offset : Nat)
    (hp0 : '$' ∉ p0.data)
    (hmids : ∀ p ∈ mids, '$' ∉ p.data ∧ headDigit p.data = false)
    (hmid : ∀ p ∈ mids.dropLast, p ≠ "") :
    pgRenumberPlaceholders (numberedFragment p0 mids 1) offset =
      numberedFragment p0 mids (offset + 1) := by
  have hconds : ∀ q ∈ mids.map String.data, '$' ∉ q ∧ headDigit q = false := by
    intro q hq
    rw [List.mem_map] at hq
    obtain ⟨p, hp, rfl⟩ := hq
    exact hmids p hp
  have hmid2 : ∀ q ∈ (mids.map String.data).dropLast, q ≠ [] := by
    intro q hq
    rw [← List.map_dropLast, List.mem_map] at hq
    obtain ⟨p, hp, rfl⟩ := hq
    intro hnil
    exact hmid p hp (by
      have : p.data = ([] : List Char) := hnil
      cases p
      simp_all)
  cases hm : mids with
  | nil =>
    rw [pgRenumberPlaceholders]
    have hcont : (numberedFragment p0 [] 1).data.contains '$' = false := by
      have : '$' ∉ (numberedFragment p0 [] 1).data := hp0
      simpa using this
    rw [hcont]
    rfl
  | cons p ps =>
    subst hm
    rw [pgRenumberPlaceholders]
    have hin : '$' ∈ (numberedFragment p0 (p :: ps) 1).data := by
      rw [numberedFragment_data]
      exact fragChars_contains_dollar _ _ _ _
    have hcont : (numberedFragment p0 (p :: ps) 1).data.contains '$' = true := by
      simpa using hin
    rw [hcont]
    simp only [Bool.not_true, Bool.false_eq_true, if_false]
    have := renumAux_fragChars ((p :: ps).map String.data) p0.data offset 1 hp0
      hconds hmid2
    rw [numberedFragment_data, this, ← numberedFragment_data]

/-! ### Insert generators -/

theorem doubleChar_mem (q : Char) :
    ∀ (l : List Char) (c : Char), c ∈ doubleChar q l → c ∈ l ∨ c = q := by
  intro l
  induction l with
  | nil => simp [doubleChar]
  | cons x xs ih =>
    intro c hc
    rw [doubleChar] at hc
    split at hc
    · simp only [List.mem_cons] at hc
      rcases hc with h | h | h
      · exact .inr h
      · exact .inr h
      · rcases ih c h with h2 | h2
        · exact .inl (by simp [h2])
        · exact .inr h2
    · simp only [List.mem_cons] at hc
      rcases hc with h | h
      · exact .inl (by simp [h])
      · rcases ih c h with h2 | h2
        · exact .inl (by simp [h2])
        · exact .inr h2

theorem pgEscapeReserved_not_mem {s : String} {x : Char}
    (hs : x ∉ s.data) (hx : x ≠ '"') : x ∉ (pgEscapeReserved s).data := by
  rw [pgEscapeReserved]
  split
  · rw [String.data_append, String.data_append]
    intro hmem
    rcases List.mem_append.mp hmem with h | h
    · rcases List.mem_append.mp h with h2 | h2
      · exact hx (by simpa using h2)
      · rcases doubleChar_mem '"' s.data x h2 with h3 | h3
        · exact hs h3
        · exact hx h3
    · exact hx (by simpa using h)
  · exact hs

theorem sqliteEscapeReserved_not_mem {s : String} {x : Char}
    (hs : x ∉ s.data) (hx : x ≠ '"') : x ∉ (sqliteEscapeReserved s).data := by
  rw [sqliteEscapeReserved]
  split
  · rw [String.data_append, String.data_append]
    intro hmem
    rcases List.mem_append.mp hmem with h | h
    · rcases List.mem_append.mp h with h2 | h2
      · exact hx (by simpa using h2)
      · rcases doubleChar_mem '"' s.data x h2 with h3 | h3
        · exact hs h3
        · exact hx h3
    · exact hx (by simpa using h)
  · exact hs

theorem mysqlEscapeReserved_not_mem {s : String} {x : Char}
    (hs : x ∉ s.data) (hx : x ≠ backquoteChar) : x ∉ (mysqlEscapeReserved s).data := by
  rw [mysqlEscapeReserved]
  split
  · rw [String.data_append, String.data_append]
    intro hmem
    rcases List.mem_append.mp hmem with h | h
    · rcases List.mem_append.mp h with h2 | h2
      · exact hx (by simpa using h2)
      · rcases doubleChar_mem backquoteChar s.data x h2 with h3 | h3
        · exact hs h3
        · exact hx h3
    · exact hx (by simpa using h)
  · exact hs

theorem goJoin_data_cons (sep : String) (x : String) (xs : List String) :
    (goJoin sep (x :: xs)).data =
      x.data ++ (match xs with
        | [] => []
        | _ :: _ => sep.data ++ (goJoin sep xs).data) := by
  cases xs with
  | nil => simp [goJoin]
  | cons y ys =>
    show (x ++ sep ++ goJoin sep (y :: ys)).data = _
    rw [String.data_append, String.data_append]
    simp

theorem goJoin_not_mem (sep : String) {x : Char} :
    ∀ (parts : List String), x ∉ sep.data → (∀ p ∈ parts, x ∉ p.data) →
      x ∉ (goJoin sep parts).data := by
  intro parts
  induction parts with
  | nil => intro _ _; simp [goJoin]
  | cons p ps ih =>
    intro hsep hps
    rw [goJoin_data_cons]
    intro hmem
    rcases List.mem_append.mp hmem with h | h
    · exact hps p (by simp) h
    · cases ps with
      | nil => simp at h
      | cons q qs =>
        rcases List.mem_append.mp h with h2 | h2
        · exact hsep h2
        · exact ih hsep (fun r hr => hps r (by simp [hr])) h2

theorem goJoin_count (c : Char) (hc : c ≠ ',') :
    ∀ (parts : List String),
      (goJoin (",") parts).data.count c = (parts.map (fun s => s.data.count c)).sum := by
  intro parts
  induction parts with
  | nil => simp [goJoin]
  | cons p ps ih =>
    rw [goJoin_data_cons]
    cases ps with
    | nil => simp
    | cons q qs =>
      rw [List.count_append, List.count_append, ih]
      have : (("," : String)).data.count c = 0 := by
        apply List.count_eq_zero.mpr
        intro hmem
        have : c = ',' := by simpa using hmem
        exact hc this
      simp [this]

theorem pgInsertValues_cols (hasIntId : Bool) :
    ∀ (cols : List String) (c : Nat),
      (pgInsertValues hasIntId cols c).2 =
        cols.filter (fun k => !(hasIntId && k == "id")) := by
  intro cols
  induction cols with
  | nil => intro c; simp [pgInsertValues]
  | cons k ks ih =>
    intro c
    by_cases hk : (hasIntId && k == "id") = true
    · rw [pgInsertValues, if_pos hk]
      dsimp only
      rw [List.filter_cons]
      simp only [hk, Bool.not_true, Bool.false_eq_true, if_false]
      exact ih c
    · rw [pgInsertValues, if_neg hk]
      dsimp only
      rw [List.filter_cons]
      simp only [Bool.not_eq_true] at hk
      simp only [hk, Bool.not_false, if_true]
      rw [ih (c + 1)]

theorem pgInsertValues_len (hasIntId : Bool) :
    ∀ (cols : List String) (c : Nat),
      (pgInsertValues hasIntId cols c).1.length = cols.length := by
  intro cols
  induction cols with
  | nil => intro c; simp [pgInsertValues]
  | cons k ks ih =>
    intro c
    by_cases hk : (hasIntId && k == "id") = true
    · rw [pgInsertValues, if_pos hk]
      dsimp only
      simp only [List.length_cons, ih c]
    · rw [pgInsertValues, if_neg hk]
      dsimp only
      simp only [List.length_cons, ih (c + 1)]

theorem dollarRepr_ne_default (k : Nat) : ("$" ++ Nat.repr k) ≠ "DEFAULT" := by
  intro h
  have hd : ("$" ++ Nat.repr k).data = ("DEFAULT" : String).data := by rw [h]
  rw [String.data_append] at hd
  have : '$' :: (Nat.repr k).data = 'D' :: "EFAULT".data := hd
  have hhead : '$' = 'D' := by injection this
  exact absurd hhead (by decide)

theorem pgInsertValues_numbering (hasIntId : Bool) :
    ∀ (cols : List String) (c : Nat),
      (pgInsertValues hasIntId cols c).1.filter (fun s => !(s == "DEFAULT")) =
        (List.range (pgInsertValues hasIntId cols c).2.length).map
          (fun i => "$" ++ Nat.repr (c + i)) := by
  intro cols
  induction cols with
  | nil => intro c; simp [pgInsertValues]
  | cons k ks ih =>
    intro c
    by_cases hk : (hasIntId && k == "id") = true
    · rw [pgInsertValues, if_pos hk]
      dsimp only
      rw [List.filter_cons]
      simp only [beq_self_eq_true, Bool.not_true, Bool.false_eq_true, if_false]
      exact ih c
    · rw [pgInsertValues, if_neg hk]
      dsimp only
      rw [List.filter_cons]
      have hne : (("$" ++ Nat.repr c) == "DEFAULT") = false :=
        beq_eq_false_iff_ne.mpr (dollarRepr_ne_default c)
      simp only [hne, Bool.not_false, if_true, List.length_cons]
      rw [ih (c + 1), List.range_succ_eq_map, List.map_cons, List.map_map]
      refine congrArg₂ _ (by simp) ?_
      refine List.map_congr_left ?_
      intro i _
      have : c + 1 + i = c + Nat.succ i := by omega
      simp [Function.comp, this]

theorem pgInsertValues_zip (cols : List String) :
    ∀ (c : Nat) (pr : String × String),
      pr ∈ cols.zip (pgInsertValues true cols c).1 →
      (pr.1 = "id" → pr.2 = "DEFAULT") ∧
        (pr.1 ≠ "id" → ∃ k, pr.2 = "$" ++ Nat.repr k) := by
  induction cols with
  | nil => intro c pr hpr; simp [pgInsertValues] at hpr
  | cons k ks ih =>
    intro c pr hpr
    rw [pgInsertValues] at hpr
    by_cases hk : k = "id"
    · rw [if_pos (by simp [hk])] at hpr
      dsimp only at hpr
      simp only [List.zip_cons_cons, List.mem_cons] at hpr
      rcases hpr with h | h
      · subst h
        exact ⟨fun _ => rfl, fun hne => absurd hk hne⟩
      · exact ih c pr h
    · rw [if_neg (by simp [hk])] at hpr
      dsimp only at hpr
      simp only [List.zip_cons_cons, List.mem_cons] at hpr
      rcases hpr with h | h
      · subst h
        exact ⟨fun he => absurd he hk, fun _ => ⟨c, rfl⟩⟩
      · exact ih (c + 1) pr h

theorem sqliteInsertValues_cols (hasIntId : Bool) :
    ∀ (cols : List String),
      (sqliteInsertValues hasIntId cols).2 =
        cols.filter (fun k => !(hasIntId && k == "id")) := by
  intro cols
  induction cols with
  | nil => simp [sqliteInsertValues]
  | cons k ks ih =>
    by_cases hk : (hasIntId && k == "id") = true
    · rw [sqliteInsertValues, if_pos hk]
      dsimp only
      rw [List.filter_cons]
      simp only [hk, Bool.not_true, Bool.false_eq_true, if_false]
      exact ih
    · rw [sqliteInsertValues, if_neg hk]
      dsimp only
      rw [List.filter_cons]
      simp only [Bool.not_eq_true] at hk
      simp only [hk, Bool.not_false, if_true]
      rw [ih]

theorem sqliteInsertValues_tokens (hasIntId : Bool) :
    ∀ (cols : List String),
      (sqliteInsertValues hasIntId cols).1 =
        cols.map (fun k => if hasIntId && k == "id" then "NULL" else "?") := by
  intro cols
  induction cols with
  | nil => simp [sqliteInsertValues]
  | cons k ks ih =>
    by_cases hk : (hasIntId && k == "id") = true
    · rw [sqliteInsertValues, if_pos hk]
      dsimp only
      rw [List.map_cons, if_pos hk, ih]
    · rw [sqliteInsertValues, if_neg hk]
      dsimp only
      rw [List.map_cons, if_neg hk, ih]

theorem sqliteInsertValues_qcount (hasIntId : Bool) :
    ∀ (cols : List String),
      (((sqliteInsertValues hasIntId cols).1.map (fun s => s.data.count '?')).sum) =
        (sqliteInsertValues hasIntId cols).2.length := by
  intro cols
  induction cols with
  | nil => simp [sqliteInsertValues]
  | cons k ks ih =>
    by_cases hk : (hasIntId && k == "id") = true
    · rw [sqliteInsertValues, if_pos hk]
      have hz : (("NULL" : String)).data.count '?' = 0 := by decide
      dsimp only
      simp only [List.map_cons, List.sum_cons, ih, hz]
      omega
    · rw [sqliteInsertValues, if_neg hk]
      have hq : (("?" : String)).data.count '?' = 1 := by decide
      dsimp only
      simp only [List.map_cons, List.sum_cons, ih, List.length_cons, hq]
      omega

theorem pgPHList_of_not_mem {l : List Char} (h : '$' ∉ l) : pgPHList l = [] := by
  have := pgPHList_clean_run l [] h
  rw [List.append_nil] at this
  rw [this, pgPHList_nil]

theorem pgValues_phList (hasIntId : Bool) :
    ∀ (cols : List String) (c : Nat) (b : List Char),
      (∀ x, b.head? = some x → x.isDigit = false) →
      pgPHList ((goJoin (",") (pgInsertValues hasIntId cols c).1).data ++ b) =
        (List.range (pgInsertValues hasIntId cols c).2.length).map
          (fun i => (Nat.repr (c + i)).data) ++ pgPHList b := by
  intro cols
  induction cols with
  | nil =>
    intro c b _
    show pgPHList ((goJoin (",") []).data ++ b) = _
    simp [goJoin, pgInsertValues]
  | cons k ks ih =>
    intro c b hb
    by_cases hk : (hasIntId && k == "id") = true
    · rw [pgInsertValues, if_pos hk]
      dsimp only
      rw [goJoin_data_cons]
      cases hrest : (pgInsertValues hasIntId ks c).1 with
      | nil =>
        have hks : ks = [] := by
          have := pgInsertValues_len hasIntId ks c
          rw [hrest] at this
          cases ks
          · rfl
          · simp at this
        subst hks
        simp only [List.append_nil]
        rw [pgPHList_clean_run _ _ (by decide)]
        simp [pgInsertValues]
      | cons x xs =>
        simp only [List.append_assoc]
        rw [pgPHList_clean_run _ _ (by decide)]
        show pgPHList ((("," : String)).data ++ ((goJoin (",") _).data ++ b)) = _
        rw [pgPHList_clean_run _ _ (by decide), ← hrest, ih c b hb]
    · rw [pgInsertValues, if_neg hk]
      dsimp only
      rw [goJoin_data_cons]
      have hdollar : (("$" ++ Nat.repr c)).data = '$' :: (Nat.repr c).data := by
        rw [String.data_append]
        rfl
      cases hrest : (pgInsertValues hasIntId ks (c + 1)).1 with
      | nil =>
        have hks : ks = [] := by
          have := pgInsertValues_len hasIntId ks (c + 1)
          rw [hrest] at this
          cases ks
          · rfl
          · simp at this
        subst hks
        simp only [List.append_nil, hdollar]
        rw [pgPHList_dollar _ _ (repr_ne_nil c) (repr_digit c) hb]
        simp [pgInsertValues, List.range_succ_eq_map]
      | cons x xs =>
        simp only [List.append_assoc, hdollar]
        rw [pgPHList_dollar _ _ (repr_ne_nil c) (repr_digit c)
          (by intro y hy; simp at hy; subst hy; decide)]
        show (Nat.repr c).data ::
            pgPHList ((("," : String)).data ++ ((goJoin (",") _).data ++ b)) = _
        rw [pgPHList_clean_run _ _ (by decide), ← hrest, ih (c + 1) b hb]
        rw [List.length_cons, List.range_succ_eq_map, List.map_cons, List.map_map]
        refine congrArg₂ _ (by simp) ?_
        refine congrArg₂ _ ?_ rfl
        refine List.map_congr_left ?_
        intro i _
        have : c + 1 + i = c + Nat.succ i := by omega
        simp [Function.comp, this]

theorem pgGenerateInsertQuery_phList (t : String) (cols : List String) (hasIntId : Bool)
    (ht : '$' ∉ t.data) (hcols : ∀ k ∈ cols, '$' ∉ k.data) :
    pgPHList ((pgGenerateInsertQuery t cols hasIntId).1).data =
      (List.range ((pgGenerateInsertQuery t cols hasIntId).2.length)).map
        (fun i => (Nat.repr (1 + i)).data) := by
  have hesc : '$' ∉ (pgEscapeReserved t).data :=
    pgEscapeReserved_not_mem ht (by decide)
  have hjoin : '$' ∉ (goJoin (",") (cols.map pgEscapeReserved)).data := by
    apply goJoin_not_mem _ _ (by decide)
    intro p hp
    rw [List.mem_map] at hp
    obtain ⟨k, hk, rfl⟩ := hp
    exact pgEscapeReserved_not_mem (hcols k hk) (by decide)
  show pgPHList (("INSERT INTO " ++ pgEscapeReserved t ++ " (" ++
      goJoin (",") (cols.map pgEscapeReserved) ++ ") VALUES (" ++
      goJoin (",") (pgInsertValues hasIntId cols 1).1 ++ ") RETURNING id")).data = _
  simp only [String.data_append, List.append_assoc]
  rw [pgPHList_clean_run _ _ (by decide), pgPHList_clean_run _ _ hesc,
    pgPHList_clean_run _ _ (by decide), pgPHList_clean_run _ _ hjoin,
    pgPHList_clean_run _ _ (by decide)]
  rw [pgValues_phList hasIntId cols 1 _ (by intro y hy; simp at hy; subst hy; decide)]
  rw [pgPHList_of_not_mem (by decide)]
  simp only [List.append_nil]
  rfl

theorem sqliteGenerateInsertQuery_qcount (t : String) (cols : List String) (hasIntId : Bool)
    (ht : '?' ∉ t.data) (hcols : ∀ k ∈ cols, '?' ∉ k.data) :
    ((sqliteGenerateInsertQuery t cols hasIntId).1).data.count '?' =
      (sqliteGenerateInsertQuery t cols hasIntId).2.length := by
  have hesc : (sqliteEscapeReserved t).data.count '?' = 0 :=
    List.count_eq_zero.mpr (sqliteEscapeReserved_not_mem ht (by decide))
  have hjoin : (goJoin (",") (cols.map sqliteEscapeReserved)).data.count '?' = 0 := by
    apply List.count_eq_zero.mpr
    apply goJoin_not_mem _ _ (by decide)
    intro p hp
    rw [List.mem_map] at hp
    obtain ⟨k, hk, rfl⟩ := hp
    exact sqliteEscapeReserved_not_mem (hcols k hk) (by decide)
  have htoks : (goJoin (",") (sqliteInsertValues hasIntId cols).1).data.count '?' =
      (sqliteInsertValues hasIntId cols).2.length := by
    rw [goJoin_count '?' (by decide), sqliteInsertValues_qcount]
  show (("INSERT INTO " ++ sqliteEscapeReserved t ++ " (" ++
      goJoin (",") (cols.map sqliteEscapeReserved) ++ ") VALUES (" ++
      goJoin (",") (sqliteInsertValues hasIntId cols).1 ++ ")")).data.count '?' =
    (sqliteInsertValues hasIntId cols).2.length
  simp only [String.data_append, List.count_append]
  rw [hesc, hjoin, htoks]
  have h1 : List.count '?' ['I', 'N', 'S', 'E', 'R', 'T', ' ', 'I', 'N', 'T', 'O', ' '] = 0 := by
    decide
  have h2 : List.count '?' [' ', '('] = 0 := by decide
  have h3 : List.count '?' [')', ' ', 'V', 'A', 'L', 'U', 'E', 'S', ' ', '('] = 0 := by decide
  have h4 : List.count '?' [')'] = 0 := by decide
  omega

theorem mysqlGenerateInsertQuery_qcount (t : String) (cols : List String) (hasIntId : Bool)
    (ht : '?' ∉ t.data) (hcols : ∀ k ∈ cols, '?' ∉ k.data) :
    ((mysqlGenerateInsertQuery t cols hasIntId).1).data.count '?' =
      (mysqlGenerateInsertQuery t cols hasIntId).2.length := by
  have hesc : (mysqlEscapeReserved t).data.count '?' = 0 :=
    List.count_eq_zero.mpr (mysqlEscapeReserved_not_mem ht (by decide))
  have hjoin : (goJoin (",") (cols.map mysqlEscapeReserved)).data.count '?' = 0 := by
    apply List.count_eq_zero.mpr
    apply goJoin_not_mem _ _ (by decide)
    intro p hp
    rw [List.mem_map] at hp
    obtain ⟨k, hk, rfl⟩ := hp
    exact mysqlEscapeReserved_not_mem (hcols k hk) (by decide)
  have htoks : (goJoin (",") (sqliteInsertValues hasIntId cols).1).data.count '?' =
      (sqliteInsertValues hasIntId cols).2.length := by
    rw [goJoin_count '?' (by decide), sqliteInsertValues_qcount]
  show (("INSERT INTO " ++ mysqlEscapeReserved t ++ " (" ++
      goJoin (",") (cols.map mysqlEscapeReserved) ++ ") VALUES (" ++
      goJoin (",") (sqliteInsertValues hasIntId cols).1 ++ ")")).data.count '?' =
    (sqliteInsertValues hasIntId cols).2.length
  simp only [String.data_append, List.count_append]
  rw [hesc, hjoin, htoks]
  have h1 : List.count '?' ['I', 'N', 'S', 'E', 'R', 'T', ' ', 'I', 'N', 'T', 'O', ' '] = 0 := by
    decide
  have h2 : List.count '?' [' ', '('] = 0 := by decide
  have h3 : List.count '?' [')', ' ', 'V', 'A', 'L', 'U', 'E', 'S', ' ', '('] = 0 := by decide
  have h4 : List.count '?' [')'] = 0 := by decide
  omega

/-! ### Lifting to ParseNamedQuery -/

theorem ParseNamedQuery_data {α : Type} (drv : Driver) (q : String)
    (params : List (String × α)) :
    ParseNamedQuery drv q params =
      (parseAux drv params 0 q.data).map (fun pr => (⟨pr.1⟩, pr.2)) := by
  rw [ParseNamedQuery]
  cases parseAux drv params 0 q.data with
  | ok pr => cases pr; simp [Except.map]
  | error e => simp [Except.map]

theorem exceptMap_map {σ τ υ : Type} (f : τ → υ) (g : σ → τ) (e : Except String σ) :
    (e.map g).map f = e.map (fun x => f (g x)) := by
  cases e <;> simp [Except.map]

theorem head_ne_of_headD {l : List Char} {d0 delim : Char} (h : l.headD d0 ≠ delim) :
    ∀ c, l.head? = some c → c ≠ delim := by
  intro c hc
  cases l with
  | nil => simp at hc
  | cons a as =>
    simp only [List.head?_cons, Option.some.injEq] at hc
    subst hc
    simpa using h

theorem ParseNamedQuery_ok_data {α : Type} {drv : Driver} {q t : String}
    {params : List (String × α)} {args : List α}
    (h : ParseNamedQuery drv q params = .ok (t, args)) :
    parseAux drv params 0 q.data = .ok (t.data, args) := by
  rw [ParseNamedQuery_data] at h
  obtain ⟨pr, hpr, hf⟩ := map_eq_ok h
  rw [hpr]
  obtain ⟨h1, h2⟩ := Prod.mk.injEq .. ▸ hf
  rw [← h1, ← h2]

theorem takeWhile_all {p : Char → Bool} (l : List Char) (h : ∀ c ∈ l, p c = true) :
    l.takeWhile p = l ∧ l.dropWhile p = [] := by
  have := takeWhile_append_of_all l [] h (by simp)
  simpa using this

theorem parseAux_single_param {α : Type} (drv : Driver) (params : List (String × α))
    (d : Char) (ds : List Char) (n : Nat)
    (hd : isParamStart d = true) (hall : ∀ c ∈ d :: ds, isParamChar c = true) :
    parseAux drv params n (':' :: d :: ds) =
      match params.lookup (⟨d :: ds⟩ : String) with
      | none => .error ("missing parameter: " ++ (⟨d :: ds⟩ : String))
      | some v => .ok ((Placeholder drv (n + 1)).data, [v]) := by
  obtain ⟨htake, hdrop⟩ := takeWhile_all (d :: ds) hall
  rw [parseAux_param drv params n d ds hd, htake, hdrop]
  cases params.lookup (⟨d :: ds⟩ : String) with
  | none => rfl
  | some v =>
    simp only [parseAux_nil, Except.map]
    rw [List.append_nil]

/-! ## Claims -/

/-- Claim C1, counterexample.  The claim states that `pgRenumberPlaceholders`
rewrites each placeholder's numeral by adding the offset and preserves all
non-placeholder text verbatim, including a `$` not followed by digits
(`addOffsetSpec` renders exactly that reading).  The code instead discards
the original numeral and renumbers the occurrences sequentially from
`offset+1`, so `"id = $1 OR id = $1"` at offset 3 becomes `$4 ... $5` rather
than `$4 ... $4`; and a bare `$` (as in `"a$ b"`) is not preserved: the code
appends `offset+1` to it. -/
theorem claim1_renumber_counterexample :
    pgRenumberPlaceholders ("id = $1 OR id = $1") 3 = "id = $4 OR id = $5" ∧
    String.mk (addOffsetSpec 3 ("id = $1 OR id = $1").data) = "id = $4 OR id = $4" ∧
    pgRenumberPlaceholders ("id = $1 OR id = $1") 3 ≠
      String.mk (addOffsetSpec 3 ("id = $1 OR id = $1").data) ∧
    pgRenumberPlaceholders ("a$ b") 3 = "a$4 b" ∧
    String.mk (addOffsetSpec 3 ("a$ b").data) = "a$ b" ∧
    pgRenumberPlaceholders ("a$ b") 3 ≠ String.mk (addOffsetSpec 3 ("a$ b").data) := by
  have ha : String.mk (addOffsetSpec 3 ("id = $1 OR id = $1").data) = "id = $4 OR id = $4" := by
    simp +decide [addOffsetSpec, natOfDigits]
  have hb : String.mk (addOffsetSpec 3 ("a$ b").data) = "a$ b" := by
    simp +decide [addOffsetSpec, natOfDigits]
  refine ⟨by decide, ha, ?_, by decide, hb, ?_⟩
  · rw [ha]; decide
  · rw [hb]; decide

/-- Claim C1, amended.  For every WHERE fragment of the form
`p0 $1 p1 $2 ... $n pn` — placeholders numbered 1..n in increasing textual
order, the pieces `p i` containing no `$` and not starting with a digit, and
the pieces between two placeholders nonempty — renumbering with offset `k`
rewrites each placeholder's numeral by adding `k` (yielding `$\x7bk+1\x7d ...
$\x7bk+n\x7d`) and preserves the non-placeholder pieces verbatim; multi-digit
numerals and a placeholder at the very end of the string (empty `pn`) are
handled.  In particular `"id = $1"` at offset 3 yields `"id = $4"`. -/
theorem claim1_renumber_amended :
    (∀ (p0 : String) (mids : List String) (offset : Nat),
      '$' ∉ p0.data →
      (∀ p ∈ mids, '$' ∉ p.data ∧ headDigit p.data = false) →
      (∀ p ∈ mids.dropLast, p ≠ "") →
      pgRenumberPlaceholders (numberedFragment p0 mids 1) offset =
        numberedFragment p0 mids (offset + 1)) ∧
    pgRenumberPlaceholders ("id = $1") 3 = "id = $4" :=
  ⟨pgRenumberPlaceholders_fragment, by decide⟩

/-- Claim C1, witness: the amended theorem applied to the fragment
`"id = " $1` (placeholder at the very end) with offset 3. -/
theorem claim1_renumber_witness :
    pgRenumberPlaceholders (numberedFragment ("id = ") [""] 1) 3 =
      numberedFragment ("id = ") [""] (3 + 1) :=
  claim1_renumber_amended.1 ("id = ") [""] 3 (by decide) (by decide) (by decide)

/-- Claim C3, counterexample.  The claim says the MySQL-style generator omits
the integer identity column entirely.  The MySQL generator pinned by the
repository's own tests (which require `NULL` and the `id` column in the text)
emits `NULL` in the VALUES list instead, differing from the spec's
omitted-entirely rendering (`mysqlGenerateInsertQueryOmitSpec`). -/
theorem claim3_identity_counterexample :
    (mysqlGenerateInsertQuery ("users") ["id", "first_name", "last_name"] true).1 =
      "INSERT INTO users (id,first_name,last_name) VALUES (NULL,?,?)" ∧
    (mysqlGenerateInsertQuery ("users") ["id", "first_name", "last_name"] true).2 =
      ["first_name", "last_name"] ∧
    (mysqlGenerateInsertQueryOmitSpec ("users") ["id", "first_name", "last_name"] true).1 =
      "INSERT INTO users (first_name,last_name) VALUES (?,?)" ∧
    (mysqlGenerateInsertQuery ("users") ["id", "first_name", "last_name"] true).1 ≠
      (mysqlGenerateInsertQueryOmitSpec ("users") ["id", "first_name", "last_name"] true).1 :=
  ⟨by decide, by decide, by decide, by decide⟩

/-- Claim C3, amended.  With the integer-identity flag set, each generator
emits, in place of the column named exactly `id`: `DEFAULT` (PostgreSQL),
`NULL` (SQLite), and likewise `NULL` (MySQL, per the repository tests — not
omitted as the spec says); excludes `id` from the returned argument-column
list; and (PostgreSQL) numbers the remaining placeholders `$1, $2, ...` with
a running bind counter independent of each column's position. -/
theorem claim3_identity_column :
    (∀ (t : String) (cols : List String),
      (pgGenerateInsertQuery t cols true).2 = cols.filter (fun k => !(k == "id"))) ∧
    (∀ (cols : List String) (pr : String × String),
      pr ∈ cols.zip (pgInsertValues true cols 1).1 →
      (pr.1 = "id" → pr.2 = "DEFAULT") ∧ (pr.1 ≠ "id" → ∃ k, pr.2 = "$" ++ Nat.repr k)) ∧
    (∀ cols : List String,
      (pgInsertValues true cols 1).1.filter (fun s => !(s == "DEFAULT")) =
        (List.range (cols.filter (fun k => !(k == "id"))).length).map
          (fun i => "$" ++ Nat.repr (1 + i))) ∧
    (∀ (t : String) (cols : List String),
      (sqliteGenerateInsertQuery t cols true).2 = cols.filter (fun k => !(k == "id")) ∧
      (sqliteInsertValues true cols).1 =
        cols.map (fun k => if k == "id" then "NULL" else "?")) ∧
    (∀ (t : String) (cols : List String),
      (mysqlGenerateInsertQuery t cols true).2 = cols.filter (fun k => !(k == "id")) ∧
      (sqliteInsertValues true cols).1 =
        cols.map (fun k => if k == "id" then "NULL" else "?")) := by
  refine ⟨?_, ?_, ?_, ?_, ?_⟩
  · intro t cols
    show (pgInsertValues true cols 1).2 = _
    rw [pgInsertValues_cols]
    simp only [Bool.true_and]
  · intro cols pr hpr
    exact pgInsertValues_zip cols 1 pr hpr
  · intro cols
    rw [pgInsertValues_numbering]
    have := pgInsertValues_cols true cols 1
    rw [this]
    simp only [Bool.true_and]
  · intro t cols
    constructor
    · show (sqliteInsertValues true cols).2 = _
      rw [sqliteInsertValues_cols]
      simp only [Bool.true_and]
    · rw [sqliteInsertValues_tokens]
      simp only [Bool.true_and]
  · intro t cols
    constructor
    · show (sqliteInsertValues true cols).2 = _
      rw [sqliteInsertValues_cols]
      simp only [Bool.true_and]
    · rw [sqliteInsertValues_tokens]
      simp only [Bool.true_and]

/-- Claim C3, witness: the zip clause of the amended theorem applied to the
column list `["id", "name"]`. -/
theorem claim3_identity_column_witness :
    (("id", "DEFAULT").1 = "id" → ("id", "DEFAULT").2 = "DEFAULT") ∧
      (("id", "DEFAULT").1 ≠ "id" → ∃ k, ("id", "DEFAULT").2 = "$" ++ Nat.repr k) :=
  claim3_identity_column.2.1 ["id", "name"] ("id", "DEFAULT") (by decide)

/-- Claim C9, counterexample.  The claim says a dialect selector outside the
known variant set is surfaced as an error by every function requiring
dialect-specific behavior, never handled by silently defaulting.  But
`JoinStringForInWithDriver` with the unknown selector 99 silently returns the
PostgreSQL-style join (its signature has no error channel at all). -/
theorem claim9_unsupported_counterexample :
    JoinStringForInWithDriver 99 0 2 = "$1,$2" ∧
    JoinStringForInWithDriver 99 0 2 = pgJoinStringForIn 0 2 :=
  ⟨by decide, by decide⟩

/-- Claim C9, amended.  `InsertAndGetId` does surface an unsupported-driver
error (`unsupported driver: Unknown`, the `%v` rendering of an unknown enum
value) for any selector outside the known set, but
`JoinStringForInWithDriver` silently falls back to the PostgreSQL-style
behavior for such selectors. -/
theorem claim9_unsupported_dialect :
    (∀ d : Int, d ≠ 0 → d ≠ 1 → d ≠ 2 →
      InsertAndGetIdDispatch d = .error ("unsupported driver: Unknown")) ∧
    (∀ (d : Int) (offset count : Nat), d ≠ 0 → d ≠ 1 → d ≠ 2 →
      JoinStringForInWithDriver d offset count = pgJoinStringForIn offset count) := by
  constructor
  · intro d h0 h1 h2
    rw [InsertAndGetIdDispatch, if_neg h0, if_neg h1, if_neg h2, driverGoString,
      if_neg h0, if_neg h1, if_neg h2]
    rfl
  · intro d offset count h0 h1 h2
    rw [JoinStringForInWithDriver, if_neg h0, if_neg h1, if_neg h2]

/-- Claim C9, witness: the amended theorem applied to the unknown selector 99. -/
theorem claim9_unsupported_dialect_witness :
    InsertAndGetIdDispatch 99 = .error ("unsupported driver: Unknown") ∧
    JoinStringForInWithDriver 99 3 2 = pgJoinStringForIn 3 2 :=
  ⟨claim9_unsupported_dialect.1 99 (by decide) (by decide) (by decide),
   claim9_unsupported_dialect.2 99 3 2 (by decide) (by decide) (by decide)⟩

/-- Claim C2: for every dialect the number of placeholders in a generated
INSERT statement equals the length of the returned argument-column list, in
matching left-to-right order (for PostgreSQL the placeholder numerals read
`1..n` left to right; for the question-mark dialects the `?` count equals the
list length); and for every rewrite the placeholders emitted equal the
argument list in emission order.  The identifier/text hypotheses exclude
inputs that themselves contain the dialect's placeholder characters, without
which "number of placeholders in the text" is not well defined. -/
theorem claim2_placeholder_invariant :
    (∀ (t : String) (cols : List String) (hasIntId : Bool),
      '$' ∉ t.data → (∀ k ∈ cols, '$' ∉ k.data) →
      pgPHList ((pgGenerateInsertQuery t cols hasIntId).1).data =
        (List.range ((pgGenerateInsertQuery t cols hasIntId).2.length)).map
          (fun i => (Nat.repr (1 + i)).data)) ∧
    (∀ (t : String) (cols : List String) (hasIntId : Bool),
      '?' ∉ t.data → (∀ k ∈ cols, '?' ∉ k.data) →
      ((sqliteGenerateInsertQuery t cols hasIntId).1).data.count '?' =
        (sqliteGenerateInsertQuery t cols hasIntId).2.length) ∧
    (∀ (t : String) (cols : List String) (hasIntId : Bool),
      '?' ∉ t.data → (∀ k ∈ cols, '?' ∉ k.data) →
      ((mysqlGenerateInsertQuery t cols hasIntId).1).data.count '?' =
        (mysqlGenerateInsertQuery t cols hasIntId).2.length) ∧
    (∀ (α : Type) (params : List (String × α)) (q t : String) (args : List α),
      '$' ∉ q.data → ParseNamedQuery .postgreSQL q params = .ok (t, args) →
      pgPHList t.data =
        (List.range args.length).map (fun i => (Nat.repr (1 + i)).data)) ∧
    (∀ (α : Type) (drv : Driver) (params : List (String × α)) (q t : String) (args : List α),
      (drv = .mySQL ∨ drv = .sqlite) → '?' ∉ q.data →
      ParseNamedQuery drv q params = .ok (t, args) →
      t.data.count '?' = args.length) := by
  refine ⟨pgGenerateInsertQuery_phList, sqliteGenerateInsertQuery_qcount,
    mysqlGenerateInsertQuery_qcount, ?_, ?_⟩
  · intro α params q t args hq h
    have := (parseAux_pg_phList params q.data.length q.data (le_refl _) 0 t.data args hq
      (ParseNamedQuery_ok_data h)).1
    simpa using this
  · intro α drv params q t args hdrv hq h
    exact parseAux_qm_count drv params hdrv q.data.length q.data (le_refl _) 0 t.data args hq
      (ParseNamedQuery_ok_data h)

/-- Claim C2, witness: each clause at a concrete input. -/
theorem claim2_placeholder_invariant_witness :
    pgPHList ((pgGenerateInsertQuery ("users") ["id", "name"] true).1).data =
      (List.range ((pgGenerateInsertQuery ("users") ["id", "name"] true).2.length)).map
        (fun i => (Nat.repr (1 + i)).data) ∧
    ((sqliteGenerateInsertQuery ("users") ["id", "name"] true).1).data.count '?' =
      (sqliteGenerateInsertQuery ("users") ["id", "name"] true).2.length ∧
    ((mysqlGenerateInsertQuery ("users") ["id", "name"] true).1).data.count '?' =
      (mysqlGenerateInsertQuery ("users") ["id", "name"] true).2.length ∧
    pgPHList (("x = $1" : String)).data =
      (List.range ([(3 : Nat)].length)).map (fun i => (Nat.repr (1 + i)).data) ∧
    (("x = ?" : String)).data.count '?' = [(3 : Nat)].length :=
  ⟨claim2_placeholder_invariant.1 ("users") ["id", "name"] true (by decide) (by decide),
   claim2_placeholder_invariant.2.1 ("users") ["id", "name"] true (by decide) (by decide),
   claim2_placeholder_invariant.2.2.1 ("users") ["id", "name"] true (by decide) (by decide),
   claim2_placeholder_invariant.2.2.2.1 Nat [("id", 3)] ("x = :id") ("x = $1") [3]
     (by decide)
     (by simp +decide [ParseNamedQuery, parseAux, scanLit, Placeholder, isParamStart,
       isParamChar, backquoteChar, List.lookup]),
   claim2_placeholder_invariant.2.2.2.2 Nat .sqlite [("id", 3)] ("x = :id") ("x = ?") [3]
     (.inr rfl) (by decide)
     (by simp +decide [ParseNamedQuery, parseAux, scanLit, Placeholder, isParamStart,
       isParamChar, backquoteChar, List.lookup])⟩

/-- Claim C4: every rewrite either succeeds or fails with an error of the
exact form `missing parameter: <name>` for a name that has no entry in the
parameter map (the `Except` result carries no partial statement or argument
list); and the spec's example fails naming `email` under every dialect. -/
theorem claim4_missing_parameter :
    (∀ (α : Type) (drv : Driver) (q : String) (params : List (String × α)),
      (∃ pr, ParseNamedQuery drv q params = .ok pr) ∨
        ∃ nm, ParseNamedQuery drv q params = .error ("missing parameter: " ++ nm) ∧
          params.lookup nm = none) ∧
    (∀ drv : Driver,
      ParseNamedQuery drv ("id = :id AND email = :email") [("id", (1 : Nat))] =
        .error ("missing parameter: email")) := by
  constructor
  · intro α drv q params
    rcases parseAux_error_form drv params q.data.length q.data (le_refl _) 0 with
      ⟨pr, hpr⟩ | ⟨nm, hnm, hlk⟩
    · refine .inl ⟨(⟨pr.1⟩, pr.2), ?_⟩
      rw [ParseNamedQuery_data, hpr]
      rfl
    · refine .inr ⟨nm, ?_, hlk⟩
      rw [ParseNamedQuery_data, hnm]
      rfl
  · intro drv
    cases drv <;> simp +decide [ParseNamedQuery, parseAux, scanLit, Placeholder,
      isParamStart, isParamChar, backquoteChar, List.lookup]

/-- Claim C7: two consecutive colons outside a literal are emitted literally
and the scan advances past both before the named-parameter rule is tried (at
any loop state), so a type cast is never parsed as a parameter; and the
spec's example rewrites to `SELECT $1::text`. -/
theorem claim7_double_colon :
    (∀ (α : Type) (drv : Driver) (params : List (String × α)) (n : Nat) (l : List Char),
      parseAux drv params n (':' :: ':' :: l) =
        (parseAux drv params n l).map (fun pr => (':' :: ':' :: pr.1, pr.2))) ∧
    (∀ v : String,
      ParseNamedQuery .postgreSQL ("SELECT :val::text") [("val", v)] =
        .ok ("SELECT $1::text", [v])) := by
  refine ⟨fun _ => parseAux_dcolon, ?_⟩
  intro v
  simp +decide [ParseNamedQuery, parseAux, scanLit, Placeholder, isParamStart,
    isParamChar, backquoteChar, List.lookup]

/-- Claim C8: every named-parameter occurrence consumes a fresh bind-counter
slot (`n+1` when `n` were consumed before) and appends the looked-up value
again, with no deduplication, regardless of earlier occurrences; and the
spec's example yields two placeholders and the argument repeated. -/
theorem claim8_repeated_params :
    (∀ (α : Type) (drv : Driver) (params : List (String × α)) (n : Nat) (d : Char)
        (rest2 : List Char), isParamStart d = true →
      parseAux drv params n (':' :: d :: rest2) =
        match params.lookup (⟨(d :: rest2).takeWhile isParamChar⟩ : String) with
        | none =>
          .error ("missing parameter: " ++ (⟨(d :: rest2).takeWhile isParamChar⟩ : String))
        | some v =>
          (parseAux drv params (n + 1) ((d :: rest2).dropWhile isParamChar)).map
            (fun pr => ((Placeholder drv (n + 1)).data ++ pr.1, v :: pr.2))) ∧
    (∀ (α : Type) (v : α) (drv : Driver),
      ParseNamedQuery drv ("id = :id OR parent_id = :id") [("id", v)] =
        .ok ("id = " ++ Placeholder drv 1 ++ " OR parent_id = " ++ Placeholder drv 2,
          [v, v])) := by
  constructor
  · intro α drv params n d rest2 hd
    exact parseAux_param drv params n d rest2 hd
  · intro α v drv
    cases drv <;> simp +decide [ParseNamedQuery, parseAux, scanLit, Placeholder,
      isParamStart, isParamChar, backquoteChar, List.lookup]

/-- Claim C8, witness: the fresh-slot clause at a concrete state. -/
theorem claim8_repeated_params_witness :
    parseAux .postgreSQL [("id", (42 : Nat))] 0 (':' :: 'i' :: ['d']) =
      match List.lookup (⟨('i' :: ['d']).takeWhile isParamChar⟩ : String)
          [("id", (42 : Nat))] with
      | none =>
        .error ("missing parameter: " ++ (⟨('i' :: ['d']).takeWhile isParamChar⟩ : String))
      | some v =>
        (parseAux .postgreSQL [("id", (42 : Nat))] (0 + 1)
            (('i' :: ['d']).dropWhile isParamChar)).map
          (fun pr => ((Placeholder .postgreSQL (0 + 1)).data ++ pr.1, v :: pr.2)) :=
  claim8_repeated_params.1 Nat .postgreSQL [("id", 42)] 0 'i' ['d'] (by decide)

/-- Claim C10: the rewriter looks a collected parameter name up by exact,
case-sensitive string equality — for a single-token query the result is
exactly the association-list lookup of the name as spelled — and `:Id`
against a map keyed `"id"` fails naming `Id`, while against `"Id"` it
succeeds. -/
theorem claim10_exact_lookup :
    (∀ (α : Type) (drv : Driver) (params : List (String × α)) (name : String),
      name.data ≠ [] → isParamStart (name.data.headD 'x') = true →
      (∀ c ∈ name.data, isParamChar c = true) →
      ParseNamedQuery drv (String.singleton ':' ++ name) params =
        match params.lookup name with
        | none => .error ("missing parameter: " ++ name)
        | some v => .ok (Placeholder drv 1, [v])) ∧
    (∀ (v : Nat) (drv : Driver),
      ParseNamedQuery drv ("x = :Id") [("id", v)] = .error ("missing parameter: Id")) ∧
    (∀ (v : Nat) (drv : Driver),
      ParseNamedQuery drv ("x = :Id") [("Id", v)] =
        .ok ("x = " ++ Placeholder drv 1, [v])) := by
  refine ⟨?_, ?_, ?_⟩
  · intro α drv params name hne hstart hall
    rw [ParseNamedQuery_data]
    have hdata : (String.singleton ':' ++ name).data = ':' :: name.data := by
      rw [String.data_append]
      rfl
    rw [hdata]
    cases hnd : name.data with
    | nil => exact absurd hnd hne
    | cons d ds =>
      have hd : isParamStart d = true := by
        rw [hnd] at hstart
        exact hstart
      have hall2 : ∀ c ∈ d :: ds, isParamChar c = true := by
        rw [← hnd]
        exact hall
      rw [parseAux_single_param drv params d ds 0 hd hall2]
      have hname : (⟨d :: ds⟩ : String) = name := by rw [← hnd]
      rw [hname]
      cases params.lookup name with
      | none => rfl
      | some v => simp [Except.map]
  · intro v drv
    cases drv <;> simp +decide [ParseNamedQuery, parseAux, scanLit, Placeholder,
      isParamStart, isParamChar, backquoteChar, List.lookup]
  · intro v drv
    cases drv <;> simp +decide [ParseNamedQuery, parseAux, scanLit, Placeholder,
      isParamStart, isParamChar, backquoteChar, List.lookup]

/-- Claim C10, witness: the exact-lookup clause at the name `id` with a
matching map entry. -/
theorem claim10_exact_lookup_witness :
    ParseNamedQuery .sqlite (String.singleton ':' ++ "id") [("id", (7 : Nat))] =
      match List.lookup ("id") [("id", (7 : Nat))] with
      | none => .error ("missing parameter: " ++ "id")
      | some v => .ok (Placeholder .sqlite 1, [v]) :=
  claim10_exact_lookup.1 Nat .sqlite [("id", 7)] ("id") (by decide) (by decide) (by decide)

/-! ### Claim C5: quoted literals are copied verbatim -/

/-- C5.  Quoted literals are copied verbatim by the rewriter, for every
dialect and parameter map: (1) a single-quoted literal whose body contains
neither the quote nor a backslash is copied unchanged and the scan resumes
after the closing quote, so any would-be parameter token inside the literal is
never rewritten; (2) the same for double-quoted literals; (3) the same for
backtick-quoted literals, whose body may moreover contain backslashes freely;
(4) a literal left unterminated at end of input is copied through
end-of-string with no error and an empty argument list; (5) a doubled quote
inside a single-quoted literal is copied as two characters and does not close
the literal, shown on a text whose tail would otherwise surface a
missing-parameter error. -/
theorem claim5_quoted_literals :
    (∀ (α : Type) (drv : Driver) (params : List (String × α)) (body rest : String),
      '\'' ∉ body.data → '\\' ∉ body.data → rest.data.headD 'x' ≠ '\'' →
      ParseNamedQuery drv
          (String.singleton '\'' ++ body ++ String.singleton '\'' ++ rest) params =
        (ParseNamedQuery drv rest params).map
          (fun pr =>
            (String.singleton '\'' ++ body ++ String.singleton '\'' ++ pr.1, pr.2))) ∧
    (∀ (α : Type) (drv : Driver) (params : List (String × α)) (body rest : String),
      '"' ∉ body.data → '\\' ∉ body.data → rest.data.headD 'x' ≠ '"' →
      ParseNamedQuery drv
          (String.singleton '"' ++ body ++ String.singleton '"' ++ rest) params =
        (ParseNamedQuery drv rest params).map
          (fun pr =>
            (String.singleton '"' ++ body ++ String.singleton '"' ++ pr.1, pr.2))) ∧
    (∀ (α : Type) (drv : Driver) (params : List (String × α)) (body rest : String),
      backquoteChar ∉ body.data → rest.data.headD 'x' ≠ backquoteChar →
      ParseNamedQuery drv
          (String.singleton backquoteChar ++ body ++
            String.singleton backquoteChar ++ rest) params =
        (ParseNamedQuery drv rest params).map
          (fun pr =>
            (String.singleton backquoteChar ++ body ++
              String.singleton backquoteChar ++ pr.1, pr.2))) ∧
    (∀ (α : Type) (drv : Driver) (params : List (String × α)) (body : String),
      '\'' ∉ body.data → '\\' ∉ body.data →
      ParseNamedQuery drv (String.singleton '\'' ++ body) params =
        .ok (String.singleton '\'' ++ body, [])) ∧
    (∀ drv : Driver,
      ParseNamedQuery drv
          (String.mk ['a', ' ', '=', ' ', '\'', 'i', 't', '\'', '\'', 's',
            ' ', ':', 'p', '\'']) ([] : List (String × Nat)) =
        .ok (String.mk ['a', ' ', '=', ' ', '\'', 'i', 't', '\'', '\'', 's',
            ' ', ':', 'p', '\''], [])) := by
  refine ⟨?_, ?_, ?_, ?_, ?_⟩
  · intro α drv params body rest hb hbs hr
    have hr2 := head_ne_of_headD hr
    have hdata :
        (String.singleton '\'' ++ body ++ String.singleton '\'' ++ rest).data =
          '\'' :: (body.data ++ '\'' :: rest.data) := by
      simp [String.singleton, String.data_append]
    simp only [ParseNamedQuery_data]
    rw [hdata, parseAux_squote,
      scanLit_closes (SupportsBackslashEscape drv) '\'' (fun _ => by decide)
        body.data rest.data hb (fun _ => hbs) hr2]
    dsimp only
    rw [exceptMap_map, exceptMap_map]
    cases parseAux drv params 0 rest.data with
    | error e => simp [Except.map]
    | ok pr =>
      obtain ⟨p1, p2⟩ := pr
      simp [Except.map, String.ext_iff, String.singleton, String.data_append]
  · intro α drv params body rest hb hbs hr
    have hr2 := head_ne_of_headD hr
    have hdata :
        (String.singleton '"' ++ body ++ String.singleton '"' ++ rest).data =
          '"' :: (body.data ++ '"' :: rest.data) := by
      simp [String.singleton, String.data_append]
    simp only [ParseNamedQuery_data]
    rw [hdata, parseAux_dquote,
      scanLit_closes (SupportsBackslashEscape drv) '"' (fun _ => by decide)
        body.data rest.data hb (fun _ => hbs) hr2]
    dsimp only
    rw [exceptMap_map, exceptMap_map]
    cases parseAux drv params 0 rest.data with
    | error e => simp [Except.map]
    | ok pr =>
      obtain ⟨p1, p2⟩ := pr
      simp [Except.map, String.ext_iff, String.singleton, String.data_append]
  · intro α drv params body rest hb hr
    have hr2 := head_ne_of_headD hr
    have hdata :
        (String.singleton backquoteChar ++ body ++
            String.singleton backquoteChar ++ rest).data =
          backquoteChar :: (body.data ++ backquoteChar :: rest.data) := by
      simp [String.singleton, String.data_append]
    simp only [ParseNamedQuery_data]
    rw [hdata, parseAux_bquote,
      scanLit_closes false backquoteChar (fun h => nomatch h)
        body.data rest.data hb (fun h => nomatch h) hr2]
    dsimp only
    rw [exceptMap_map, exceptMap_map]
    cases parseAux drv params 0 rest.data with
    | error e => simp [Except.map]
    | ok pr =>
      obtain ⟨p1, p2⟩ := pr
      simp [Except.map, String.ext_iff, String.singleton, String.data_append]
  · intro α drv params body hb hbs
    have hdata : (String.singleton '\'' ++ body).data = '\'' :: body.data := by
      simp [String.singleton, String.data_append]
    simp only [ParseNamedQuery_data]
    rw [hdata, parseAux_squote,
      scanLit_unterminated (SupportsBackslashEscape drv) '\'' body.data hb
        (fun _ => hbs)]
    dsimp only
    rw [parseAux_nil]
    simp [Except.map, String.ext_iff, String.singleton, String.data_append]
  · intro drv
    cases drv <;>
      simp +decide [ParseNamedQuery, parseAux, scanLit, Placeholder,
        isParamStart, isParamChar, backquoteChar, List.lookup]

/-- Witness for C5: instantiates the single-quote clause on the literal
body `:not` followed by a tail holding a real parameter. -/
theorem claim5_quoted_literals_witness :
    ('\'' ∉ (String.mk [':', 'n', 'o', 't']).data ∧
      '\\' ∉ (String.mk [':', 'n', 'o', 't']).data ∧
      (" OR x = :y").data.headD 'x' ≠ '\'') ∧
    ParseNamedQuery Driver.sqlite
        (String.singleton '\'' ++ String.mk [':', 'n', 'o', 't'] ++
          String.singleton '\'' ++ (" OR x = :y")) [("y", 7)] =
      (ParseNamedQuery Driver.sqlite (" OR x = :y") [("y", 7)]).map
        (fun pr =>
          (String.singleton '\'' ++ String.mk [':', 'n', 'o', 't'] ++
            String.singleton '\'' ++ pr.1, pr.2)) :=
  ⟨⟨by decide, by decide, by decide⟩,
    claim5_quoted_literals.1 Nat Driver.sqlite [("y", 7)]
      (String.mk [':', 'n', 'o', 't']) (" OR x = :y")
      (by decide) (by decide) (by decide)⟩

/-! ### Claim C6: dialect-conditional backslash escaping -/

/-- C6.  Backslash escaping inside quoted literals is dialect-conditional:
(1) the backslash-escape capability holds exactly for the MySQL-style
dialect; (2) under MySQL, inside a single-quoted literal a backslash followed
by any character — including the quote itself — is copied as both characters
and does not close the literal; (3) on the text `x = '\' :p` the MySQL
dialect copies everything as one unterminated literal (no error, no
arguments), while PostgreSQL and SQLite treat the backslash as ordinary, so
the second quote closes the literal and the trailing `:p` surfaces a
missing-parameter error; (4) backtick literals never honor backslash
escaping: on the backtick analogue of the same text every dialect, MySQL
included, reports the missing parameter. -/
theorem claim6_backslash_escape :
    (∀ drv : Driver, SupportsBackslashEscape drv = true ↔ drv = Driver.mySQL) ∧
    (∀ (α : Type) (params : List (String × α)) (b1 b2 rest : String) (c : Char),
      '\'' ∉ b1.data → '\\' ∉ b1.data → '\'' ∉ b2.data → '\\' ∉ b2.data →
      rest.data.headD 'x' ≠ '\'' →
      ParseNamedQuery Driver.mySQL
          (String.singleton '\'' ++ b1 ++ String.singleton '\\' ++
            String.singleton c ++ b2 ++ String.singleton '\'' ++ rest) params =
        (ParseNamedQuery Driver.mySQL rest params).map
          (fun pr =>
            (String.singleton '\'' ++ b1 ++ String.singleton '\\' ++
              String.singleton c ++ b2 ++ String.singleton '\'' ++ pr.1,
              pr.2))) ∧
    (ParseNamedQuery Driver.mySQL
        (String.mk ['x', ' ', '=', ' ', '\'', '\\', '\'', ' ', ':', 'p'])
        ([] : List (String × Nat)) =
      .ok (String.mk ['x', ' ', '=', ' ', '\'', '\\', '\'', ' ', ':', 'p'], []) ∧
      ParseNamedQuery Driver.postgreSQL
        (String.mk ['x', ' ', '=', ' ', '\'', '\\', '\'', ' ', ':', 'p'])
        ([] : List (String × Nat)) = .error ("missing parameter: p") ∧
      ParseNamedQuery Driver.sqlite
        (String.mk ['x', ' ', '=', ' ', '\'', '\\', '\'', ' ', ':', 'p'])
        ([] : List (String × Nat)) = .error ("missing parameter: p")) ∧
    (∀ drv : Driver,
      ParseNamedQuery drv
          (String.mk ['x', ' ', '=', ' ', backquoteChar, '\\', backquoteChar,
            ' ', ':', 'p']) ([] : List (String × Nat)) =
        .error ("missing parameter: p")) := by
  refine ⟨?_, ?_, ?_, ?_⟩
  · intro drv
    cases drv <;> simp [SupportsBackslashEscape]
  · intro α params b1 b2 rest c hb1 hbs1 hb2 hbs2 hr
    have hr2 := head_ne_of_headD hr
    have hdata :
        (String.singleton '\'' ++ b1 ++ String.singleton '\\' ++
            String.singleton c ++ b2 ++ String.singleton '\'' ++ rest).data =
          '\'' :: (b1.data ++ '\\' :: c :: (b2.data ++ '\'' :: rest.data)) := by
      simp [String.singleton, String.data_append]
    have hesc : SupportsBackslashEscape Driver.mySQL = true := rfl
    simp only [ParseNamedQuery_data]
    rw [hdata, parseAux_squote, hesc,
      scanLit_clean_run true '\'' b1.data _ hb1 (fun _ => hbs1),
      scanLit_at_backslash '\'' c (b2.data ++ '\'' :: rest.data),
      scanLit_closes true '\'' (fun _ => by decide) b2.data rest.data hb2
        (fun _ => hbs2) hr2]
    dsimp only
    rw [exceptMap_map, exceptMap_map]
    cases parseAux Driver.mySQL params 0 rest.data with
    | error e => simp [Except.map]
    | ok pr =>
      obtain ⟨p1, p2⟩ := pr
      simp [Except.map, String.ext_iff, String.singleton, String.data_append]
  · refine ⟨?_, ?_, ?_⟩ <;>
      simp +decide [ParseNamedQuery, parseAux, scanLit, Placeholder,
        isParamStart, isParamChar, backquoteChar, List.lookup]
  · intro drv
    cases drv <;>
      simp +decide [ParseNamedQuery, parseAux, scanLit, Placeholder,
        isParamStart, isParamChar, backquoteChar, List.lookup]

/-- Witness for C6: instantiates the MySQL clause with the escaped character
being the quote itself, a tail holding a real parameter. -/
theorem claim6_backslash_escape_witness :
    ('\'' ∉ ("ab").data ∧ '\\' ∉ ("ab").data ∧ '\'' ∉ ("cd").data ∧
      '\\' ∉ ("cd").data ∧ (" :q").data.headD 'x' ≠ '\'') ∧
    ParseNamedQuery Driver.mySQL
        (String.singleton '\'' ++ ("ab") ++ String.singleton '\\' ++
          String.singleton '\'' ++ ("cd") ++ String.singleton '\'' ++ (" :q"))
        [("q", 5)] =
      (ParseNamedQuery Driver.mySQL (" :q") [("q", 5)]).map
        (fun pr =>
          (String.singleton '\'' ++ ("ab") ++ String.singleton '\\' ++
            String.singleton '\'' ++ ("cd") ++ String.singleton '\'' ++ pr.1,
            pr.2)) :=
  ⟨⟨by decide, by decide, by decide, by decide, by decide⟩,
    claim6_backslash_escape.2.1 Nat [("q", 5)] ("ab") ("cd") (" :q") '\''
      (by decide) (by decide) (by decide) (by decide) (by decide)⟩

end GoLightning
